import Mathlib

/-!
# Verification of `dlkcnet_arch.py` (MFRSR video super-resolution network)

This file gives a shallow embedding of the control flow, tensor-shape
behaviour and state handling of the MFRSR architecture defined in
`dlkcnet_arch.py`, and proves the testable properties stated in the
design document about it.

Two complementary embeddings are used.

* A value-level model (`VOps`, `forwardV`, ...) in which a tensor is an
  abstract type `T` and the learned operators of the network (SPyNet, the
  feature extractors, the residual backbones, the temporal-attention
  fusion block, the deformable-alignment module, the convolutions of the
  reconstruction head) are opaque parameters.  The time dimension of a
  sequence tensor of shape (n, t, c, h, w) is an explicit `List T`, one
  entry per frame; batch, channel and spatial dimensions stay folded
  inside `T`.  Exact arithmetic replaces floating point, so the source's
  `torch.norm(x - y) == 0` test is modelled as exact equality `x = y`.

* A shape-level model (`Sh`, `forwardSh`, ...) in which a tensor is its
  shape and every operator is the shape transformer PyTorch gives it,
  with the shape checks PyTorch performs (`torch.cat`, `torch.stack`,
  convolution arity, ...) made explicit as `Except Err` errors.  Device
  placement (`.cuda()` / `.cpu()`) has no effect on shapes or values and
  is not modelled.

External collaborators (basicsr's `ConvResidualBlocks`, `SpyNet`,
`TSAFusion`, `flow_warp`, torchvision's `deform_conv2d`) are consumed,
not reimplemented, exactly as the design document prescribes: they enter
the models as opaque operators with their documented input/output shape
contracts.
-/

set_option autoImplicit false

namespace MFRSRSpec

/-- The two propagation branches created in `MFRSR.__init__`
(`modules = ['backward_1', 'forward_1']`).  The string keys of the
source's module dictionaries are statically known, so they are modelled
by an enumerated type. -/
inductive Dir
  | backward1
  | forward1
deriving DecidableEq

/-- The position of a branch in the construction loop
`for i, module in enumerate(modules)`: `backward_1` is 0, `forward_1`
is 1.  The backbone of branch `i` is `ConvResidualBlocks((1 + i) * mid_channels, ...)`. -/
def Dir.index : Dir → Nat
  | .backward1 => 0
  | .forward1 => 1

/-- `'backward' in module_name` for the two module names that exist. -/
def Dir.isBackward : Dir → Bool
  | .backward1 => true
  | .forward1 => false

/-! ## Value-level model -/

/-- The opaque learned operators the forward pass composes, value-level.
Each field corresponds to one sub-module or tensor primitive used by
`MFRSR.forward` and its helpers; the model never looks inside them. -/
structure VOps (T : Type) where
  /-- `self.spynet(a, b)`: optical flow from frame batch `a` to `b`. -/
  spynet : T → T → T
  /-- `lqs.view(-1, c, h, w)`: fold the time dimension into the batch. -/
  flatten5 : List T → T
  /-- `self.feat_extract1(...)`. -/
  featExtract1 : T → T
  /-- `self.feat_extract2(...)`. -/
  featExtract2 : T → T
  /-- `F.interpolate(a, size=b.shape[2:], mode='bilinear', align_corners=False)`. -/
  resizeTo : T → T → T
  /-- Elementwise tensor addition. -/
  add : T → T → T
  /-- `feats_.view(n, t, -1, h, w)` followed by the per-frame slices
  `feats_[:, i, :, :, :]` for `i` in `range(t)`. -/
  slices : T → Nat → List T
  /-- `flows.new_zeros(n, self.mid_channels, h, w)`: the zero initial state. -/
  newZeros : T
  /-- `torch.zeros_like(x)`. -/
  zerosLike : T → T
  /-- `flow_warp(x, flow.permute(0, 2, 3, 1))`. -/
  flowWarp : T → T → T
  /-- `self.deform_align[module](feat_prop, cond, flow_n1, flow_n2)`. -/
  deformAlign : Dir → T → T → T → T → T
  /-- `self.backbone[module](x)`. -/
  backbone : Dir → T → T
  /-- `self.fusion[module](torch.stack([a, b], dim=1))`. -/
  fusion : Dir → T → T → T
  /-- `torch.cat([...], dim=1)`. -/
  catChannel : List T → T
  /-- `self.reconstruction(x)`. -/
  reconstruction : T → T
  /-- `self.upconv1`. -/
  upconv1 : T → T
  /-- `self.upconv2`. -/
  upconv2 : T → T
  /-- `self.pixel_shuffle`. -/
  pixelShuffle : T → T
  /-- `self.conv_hr`. -/
  convHr : T → T
  /-- `self.conv_last`. -/
  convLast : T → T
  /-- `self.lrelu`. -/
  lrelu : T → T
  /-- `self.img_upsample` (4x bilinear). -/
  imgUpsample : T → T

/-- `MFRSR.check_if_mirror_extended`, as a transformer of the
`self.is_mirror_extended` flag: with an even frame count the sequence is
chunked in two along time and the flag is set to `True` when
`torch.norm(lqs_1 - lqs_2.flip(1)) == 0`; with exact arithmetic that
norm test is equality of the first half with the reversed second half.
The flag is never assigned `False`. -/
def checkIfMirrorExtended {T : Type} [DecidableEq T] (flag : Bool) (lqs : List T) : Bool :=
  if lqs.length % 2 = 0 then
    if lqs.take (lqs.length / 2) = (lqs.drop (lqs.length / 2)).reverse then true
    else flag
  else flag

/-- `MFRSR.compute_flow` value-level: `flows_backward` is SPyNet applied
to each consecutive pair `(frame i, frame i+1)`; `flows_forward` is
`flows_backward.flip(1)` when `self.is_mirror_extended` holds, and the
pairwise SPyNet recomputation in the opposite order otherwise.  The
result is `(flows_forward, flows_backward)`. -/
def computeFlow {T : Type} (ops : VOps T) (flag : Bool) (lqs : List T) : List T × List T :=
  let lqs1 := lqs.dropLast
  let lqs2 := lqs.drop 1
  let flowsBackward := List.zipWith ops.spynet lqs1 lqs2
  let flowsForward :=
    if flag then flowsBackward.reverse else List.zipWith ops.spynet lqs2 lqs1
  (flowsForward, flowsBackward)

/-- Python list indexing with a (possibly negative) index and a default
for the out-of-range case.  On the executions the theorems below talk
about, every index is in range, so the default is never the value used. -/
def pyGetD {α : Type} (l : List α) (i : Int) (d : α) : α :=
  if 0 ≤ i then l.getD i.toNat d
  else l.getD (l.length - (-i).toNat) d

/-- `mapping_idx = list(range(0, len(feats['spatial']))); mapping_idx += mapping_idx[::-1]`. -/
def mappingIdx (len : Nat) : List Nat :=
  List.range len ++ (List.range len).reverse

/-- `frame_idx = range(0, t + 1)`, reversed for a backward branch. -/
def frameIdxList (t : Nat) (isBackward : Bool) : List Nat :=
  if isBackward then (List.range (t + 1)).reverse else List.range (t + 1)

/-- `flow_idx`: for a backward branch it is the reversed `frame_idx`
itself; for a forward branch it is `range(-1, t)`. -/
def flowIdxList (t : Nat) (isBackward : Bool) : List Int :=
  if isBackward then ((List.range (t + 1)).reverse).map Int.ofNat
  else (List.range (t + 1)).map (fun k => Int.ofNat k - 1)

/-- The pairs `(i, idx)` of `enumerate(frame_idx)` driving the
propagation loop. -/
def enumSteps (t : Nat) (isBackward : Bool) : List (Nat × Nat) :=
  (frameIdxList t isBackward).enum

/-- The inputs of one call of `MFRSR.propagate`, value-level:
the dictionary of feature lists is resolved at the call site into the
read-only spatial features, the completed lists of the other branches
(`feats[k]` for `k not in ['spatial', module_name]`, in dictionary
order), and the flows for this branch. -/
structure PCtx (T : Type) where
  ops : VOps T
  dir : Dir
  withAlignment : Bool
  spatial : List T
  others : List (List T)
  flows : List T

/-- The second-order deformable alignment stage of one loop iteration of
`MFRSR.propagate` (the body of `if i > 0 and self.is_with_alignment`):
when the guard fails the propagated state `feat_prop` passes through
unchanged. `sofar` is `feats[module_name]` as built so far (for the
`feats[module_name][-2]` second-order read). -/
def alignStage {T : Type} (ops : VOps T) (dir : Dir) (withAlignment : Bool)
    (flows : List T) (sofar : List T) (featCurrent : T) (i : Nat) (feat_prop : T) : T :=
  if 0 < i ∧ withAlignment then
    let flowIdx := flowIdxList flows.length dir.isBackward
    let flow_n1 := pyGetD flows (pyGetD flowIdx (i : Int) 0) ops.newZeros
    let cond_n1 := ops.flowWarp feat_prop flow_n1
    let feat_n2 := ops.zerosLike feat_prop
    let flow_n2 := ops.zerosLike flow_n1
    let cond_n2 := ops.zerosLike cond_n1
    let second :=
      if 1 < i then
        let feat_n2 := pyGetD sofar (-2) ops.newZeros
        let flow_raw := pyGetD flows (pyGetD flowIdx ((i : Int) - 1) 0) ops.newZeros
        let flow_n2 := ops.add flow_n1 (ops.flowWarp flow_raw flow_n1)
        let cond_n2 := ops.flowWarp feat_n2 flow_n2
        (feat_n2, flow_n2, cond_n2)
      else (feat_n2, flow_n2, cond_n2)
    let cond := ops.catChannel [cond_n1, featCurrent, second.2.2]
    let feat_cat := ops.catChannel [feat_prop, second.1]
    ops.deformAlign dir feat_cat cond flow_n1 second.2.1
  else feat_prop

/-- One iteration of the propagation loop: alignment stage, then
concatenation with the spatial feature and the other branches' features
at this frame, the residual backbone, the stack-and-fuse residual, and
the append to this branch's list. `s` is the pair
(current `feat_prop`, `feats[module_name]` so far). -/
def propagateStep {T : Type} (ctx : PCtx T) (s : T × List T) (p : Nat × Nat) : T × List T :=
  let i := p.1
  let idx := p.2
  let feat_current :=
    pyGetD ctx.spatial ((mappingIdx ctx.spatial.length).getD idx 0 : Int) ctx.ops.newZeros
  let aligned := alignStage ctx.ops ctx.dir ctx.withAlignment ctx.flows s.2 feat_current i s.1
  let last_feat := ctx.others.map (fun l => pyGetD l (idx : Int) ctx.ops.newZeros)
  let feat_b := ctx.ops.backbone ctx.dir (ctx.ops.catChannel (feat_current :: last_feat))
  let feat_prop := ctx.ops.add aligned (ctx.ops.fusion ctx.dir feat_b aligned)
  (feat_prop, s.2 ++ [feat_prop])

/-- `MFRSR.propagate`, value-level: fold the loop body over
`enumerate(frame_idx)` starting from the zero state, and reverse the
produced list for a backward branch. -/
def propagate {T : Type} (ctx : PCtx T) : List T :=
  let res := (enumSteps ctx.flows.length ctx.dir.isBackward).foldl
    (propagateStep ctx) (ctx.ops.newZeros, [])
  if ctx.dir.isBackward then res.2.reverse else res.2

/-- The state of the propagation loop of `ctx` after its first `k`
iterations (a replay of the same fold, stopped early). -/
def propagateState {T : Type} (ctx : PCtx T) (k : Nat) : T × List T :=
  ((enumSteps ctx.flows.length ctx.dir.isBackward).take k).foldl
    (propagateStep ctx) (ctx.ops.newZeros, [])

/-- The alignment-stage output that iteration `k` of the propagation
loop of `ctx` feeds into the backbone/fusion stage (the value of
`feat_prop` right after the `if i > 0 and self.is_with_alignment` block
of that iteration). -/
def fusionInputAt {T : Type} (ctx : PCtx T) (k : Nat) : T :=
  let s := propagateState ctx k
  match (enumSteps ctx.flows.length ctx.dir.isBackward).drop k with
  | [] => s.1
  | p :: _ =>
    let feat_current :=
      pyGetD ctx.spatial ((mappingIdx ctx.spatial.length).getD p.2 0 : Int) ctx.ops.newZeros
    alignStage ctx.ops ctx.dir ctx.withAlignment ctx.flows s.2 feat_current p.1 s.1

/-- The per-frame spatial features of `MFRSR.forward`: with the CPU-cache
policy active the loop body appends, `t` times, the features extracted
from the whole flattened clip `lqs.view(-1, c, h, w)` (the loop variable
`i` is not used); without it the same flattened computation is viewed
back to `(n, t, -1, h, w)` and sliced per frame. -/
def spatialFeats {T : Type} (ops : VOps T) (cpuCache : Bool) (lqs : List T) : List T :=
  let v := ops.flatten5 lqs
  let feats1 := ops.featExtract1 v
  let feats2 := ops.resizeTo (ops.featExtract2 v) feats1
  let featsSum := ops.add feats1 feats2
  if cpuCache then List.replicate lqs.length featsSum
  else ops.slices featsSum lqs.length

/-- One frame of `MFRSR.upsample`: concatenate the popped directional
features behind the spatial feature, run the reconstruction head, and
add the (4x-bilinearly-upsampled, in low-res-input mode) input frame as
a residual skip. -/
def upsampleFrame {T : Type} (ops : VOps T) (isLowRes : Bool)
    (lqFrame : T) (spatialFeat : T) (popped : List T) : T :=
  let hr := ops.catChannel (spatialFeat :: popped)
  let hr := ops.reconstruction hr
  let hr := ops.lrelu (ops.pixelShuffle (ops.upconv1 hr))
  let hr := ops.lrelu (ops.pixelShuffle (ops.upconv2 hr))
  let hr := ops.lrelu (ops.convHr hr)
  let hr := ops.convLast hr
  if isLowRes then ops.add hr (ops.imgUpsample lqFrame) else ops.add hr lqFrame

/-- The loop of `MFRSR.upsample`: `for i in range(0, lqs.size(1))`,
popping the oldest remaining feature of each direction list
(`feats[k].pop(0)` in dictionary order: backward_1 then forward_1). -/
def upsampleGo {T : Type} (ops : VOps T) (isLowRes : Bool) (lqs spatial : List T) :
    Nat → Nat → List T → List T → List T
  | 0, _, _, _ => []
  | k + 1, i, b1, f1 =>
    let hr := upsampleFrame ops isLowRes (pyGetD lqs (i : Int) ops.newZeros)
      (pyGetD spatial ((mappingIdx spatial.length).getD i 0 : Int) ops.newZeros)
      [b1.headD ops.newZeros, f1.headD ops.newZeros]
    hr :: upsampleGo ops isLowRes lqs spatial k (i + 1) b1.tail f1.tail

/-- `MFRSR.upsample`, value-level: the stacked per-frame outputs. -/
def upsampleV {T : Type} (ops : VOps T) (isLowRes : Bool) (lqs spatial b1 f1 : List T) : List T :=
  upsampleGo ops isLowRes lqs spatial lqs.length 0 b1 f1

/-- `MFRSR.forward`, value-level, for a low-res-input instance (the only
constructible kind, see `initMFRSR` below): returns the output sequence
together with the new value of the mutable instance flag
`self.is_mirror_extended`.  `self.cpu_cache = t > self.cpu_cache_length`
is recomputed each call. -/
def forwardV {T : Type} [DecidableEq T] (ops : VOps T) (withAlignment : Bool)
    (cacheLen : Nat) (flag : Bool) (lqs : List T) : List T × Bool :=
  let cpuCache := decide (cacheLen < lqs.length)
  let flag1 := checkIfMirrorExtended flag lqs
  let spatial := spatialFeats ops cpuCache lqs
  let flows := computeFlow ops flag1 lqs
  let b1 := propagate
    { ops := ops, dir := .backward1, withAlignment := withAlignment,
      spatial := spatial, others := [], flows := flows.2 }
  let f1 := propagate
    { ops := ops, dir := .forward1, withAlignment := withAlignment,
      spatial := spatial, others := [b1], flows := flows.1 }
  (upsampleV ops true lqs spatial b1 f1, flag1)

/-- A concrete instantiation of the opaque operators over `Nat`, used
only to evaluate the model at concrete inputs in witnesses. -/
def natOps : VOps Nat where
  spynet := fun a b => a + 2 * b
  flatten5 := fun l => l.sum
  featExtract1 := fun x => x + 1
  featExtract2 := fun x => 2 * x
  resizeTo := fun a _ => a
  add := fun a b => a + b
  slices := fun x t => List.replicate t x
  newZeros := 0
  zerosLike := fun _ => 0
  flowWarp := fun a b => a + b
  deformAlign := fun _ a b c d => a + b + c + d
  backbone := fun _ x => x + 3
  fusion := fun _ a b => a + 2 * b
  catChannel := fun l => l.sum
  reconstruction := fun x => x + 5
  upconv1 := fun x => x + 1
  upconv2 := fun x => x + 2
  pixelShuffle := fun x => 2 * x
  convHr := fun x => x + 4
  convLast := fun x => x + 6
  lrelu := fun x => x
  imgUpsample := fun x => 4 * x

/-! ### Basic facts about the mirror flag -/

theorem checkIfMirrorExtended_monotone {T : Type} [DecidableEq T] (lqs : List T) :
    checkIfMirrorExtended true lqs = true := by
  unfold checkIfMirrorExtended
  split <;> [skip; rfl]
  split <;> rfl

theorem checkIfMirrorExtended_idem {T : Type} [DecidableEq T] (flag : Bool) (lqs : List T) :
    checkIfMirrorExtended (checkIfMirrorExtended flag lqs) lqs
      = checkIfMirrorExtended flag lqs := by
  unfold checkIfMirrorExtended
  split <;> [skip; rfl]
  split <;> simp_all

theorem forwardV_snd {T : Type} [DecidableEq T] (ops : VOps T) (wa : Bool)
    (cacheLen : Nat) (flag : Bool) (lqs : List T) :
    (forwardV ops wa cacheLen flag lqs).2 = checkIfMirrorExtended flag lqs := by
  simp [forwardV]

theorem forwardV_flag_congr {T : Type} [DecidableEq T] (ops : VOps T) (wa : Bool)
    (cacheLen : Nat) (f1 f2 : Bool) (lqs : List T)
    (h : checkIfMirrorExtended f1 lqs = checkIfMirrorExtended f2 lqs) :
    forwardV ops wa cacheLen f1 lqs = forwardV ops wa cacheLen f2 lqs := by
  simp only [forwardV, h]

/-! ### Alignment-stage helper lemmas -/

theorem alignStage_at_zero {T : Type} (ops : VOps T) (dir : Dir) (wa : Bool)
    (flows sofar : List T) (fc st : T) :
    alignStage ops dir wa flows sofar fc 0 st = st := by
  simp [alignStage]

theorem alignStage_noAlignment {T : Type} (ops : VOps T) (dir : Dir)
    (flows sofar : List T) (fc st : T) (i : Nat) :
    alignStage ops dir false flows sofar fc i st = st := by
  simp [alignStage]

theorem frameIdxList_cons (t : Nat) (isBackward : Bool) :
    ∃ y rest, frameIdxList t isBackward = y :: rest := by
  cases isBackward with
  | false =>
    exact ⟨0, (List.range t).map Nat.succ, by simp [frameIdxList, List.range_succ_eq_map]⟩
  | true =>
    exact ⟨t, (List.range t).reverse, by simp [frameIdxList, List.range_succ]⟩

theorem fusionInputAt_zero {T : Type} (ctx : PCtx T) :
    fusionInputAt ctx 0 = ctx.ops.newZeros := by
  obtain ⟨y, rest, hy⟩ := frameIdxList_cons ctx.flows.length ctx.dir.isBackward
  simp [fusionInputAt, propagateState, enumSteps, hy, List.enum_cons, alignStage_at_zero]

theorem propagateStep_deformAlign_irrelevant {T : Type} (ctx : PCtx T)
    (g : Dir → T → T → T → T → T) (hwa : ctx.withAlignment = false)
    (s : T × List T) (p : Nat × Nat) :
    propagateStep { ctx with ops := { ctx.ops with deformAlign := g } } s p
      = propagateStep ctx s p := by
  simp [propagateStep, hwa, alignStage_noAlignment]

theorem propagate_deformAlign_irrelevant {T : Type} (ctx : PCtx T)
    (g : Dir → T → T → T → T → T) (hwa : ctx.withAlignment = false) :
    propagate { ctx with ops := { ctx.ops with deformAlign := g } } = propagate ctx := by
  unfold propagate
  have hfold : ∀ (l : List (Nat × Nat)) (s : T × List T),
      l.foldl (propagateStep { ctx with ops := { ctx.ops with deformAlign := g } }) s
        = l.foldl (propagateStep ctx) s := by
    intro l
    induction l with
    | nil => intro s; rfl
    | cons p rest ih =>
      intro s
      simp only [List.foldl_cons, propagateStep_deformAlign_irrelevant ctx g hwa, ih]
  simp only [hfold]

/-! ### Claim theorems on the value-level model -/

/-- C2.  For every input sequence with even frame count whose second
half is the time-reversal of its first half, the forward pass sets the
mirrored flag to true (exact-equality check on the sequence split in
half), and `compute_flow` derives the forward flow field by reversing
the backward flow field along time instead of recomputing it with the
flow estimator. -/
theorem mirror_input_sets_flag_and_flips_flow {T : Type} [DecidableEq T]
    (ops : VOps T) (wa : Bool) (cacheLen : Nat) (flag : Bool) (lqs : List T)
    (heven : lqs.length % 2 = 0)
    (hmir : lqs.drop (lqs.length / 2) = (lqs.take (lqs.length / 2)).reverse) :
    (forwardV ops wa cacheLen flag lqs).2 = true ∧
    checkIfMirrorExtended flag lqs = true ∧
    computeFlow ops (checkIfMirrorExtended flag lqs) lqs =
      ((List.zipWith ops.spynet lqs.dropLast (lqs.drop 1)).reverse,
       List.zipWith ops.spynet lqs.dropLast (lqs.drop 1)) := by
  have h3 : lqs.take (lqs.length / 2) = (lqs.drop (lqs.length / 2)).reverse := by
    rw [hmir, List.reverse_reverse]
  have hflag : checkIfMirrorExtended flag lqs = true := by
    simp [checkIfMirrorExtended, heven, h3]
  refine ⟨?_, hflag, ?_⟩
  · rw [forwardV_snd, hflag]
  · rw [hflag]; simp [computeFlow]

/-- Witness for `mirror_input_sets_flag_and_flips_flow` at the concrete
mirror-extended sequence `[1, 2, 2, 1]`. -/
theorem mirror_input_sets_flag_and_flips_flow_witness :
    (forwardV natOps true 100 false [1, 2, 2, 1]).2 = true ∧
    checkIfMirrorExtended false ([1, 2, 2, 1] : List Nat) = true ∧
    computeFlow natOps (checkIfMirrorExtended false ([1, 2, 2, 1] : List Nat)) [1, 2, 2, 1] =
      ((List.zipWith natOps.spynet ([1, 2, 2, 1] : List Nat).dropLast
          (([1, 2, 2, 1] : List Nat).drop 1)).reverse,
       List.zipWith natOps.spynet ([1, 2, 2, 1] : List Nat).dropLast
          (([1, 2, 2, 1] : List Nat).drop 1)) :=
  mirror_input_sets_flag_and_flips_flow natOps true 100 false [1, 2, 2, 1]
    (by decide) (by decide)

/-- C4.  Re-running the forward pass on the same model instance (same
opaque weights, the mutable mirror flag carried over from the first run)
with the same input yields the same output and the same flag: the only
mutable state read by `forward` is `self.is_mirror_extended`, and the
flag value `check_if_mirror_extended` leaves for the second run produces
the same flows as in the first run. -/
theorem forward_rerun_same_output {T : Type} [DecidableEq T] (ops : VOps T)
    (wa : Bool) (cacheLen : Nat) (flag : Bool) (lqs : List T) :
    (forwardV ops wa cacheLen (forwardV ops wa cacheLen flag lqs).2 lqs).1
      = (forwardV ops wa cacheLen flag lqs).1 ∧
    (forwardV ops wa cacheLen (forwardV ops wa cacheLen flag lqs).2 lqs).2
      = (forwardV ops wa cacheLen flag lqs).2 := by
  have key : forwardV ops wa cacheLen (forwardV ops wa cacheLen flag lqs).2 lqs
      = forwardV ops wa cacheLen flag lqs := by
    rw [forwardV_snd]
    exact forwardV_flag_congr ops wa cacheLen _ _ lqs (checkIfMirrorExtended_idem flag lqs)
  exact ⟨congrArg Prod.fst key, congrArg Prod.snd key⟩

/-- C9.  The mirrored flag is sticky: `check_if_mirror_extended` never
resets a true flag, a forward pass entered with the flag true leaves it
true, and with the flag true `compute_flow` always returns the reversed
backward flows as the forward flows — on every input, mirrored or not. -/
theorem mirror_flag_sticky {T : Type} [DecidableEq T] (ops : VOps T) :
    (∀ lqs : List T, checkIfMirrorExtended true lqs = true) ∧
    (∀ (wa : Bool) (cacheLen : Nat) (lqs : List T),
      (forwardV ops wa cacheLen true lqs).2 = true) ∧
    (∀ lqs : List T,
      (computeFlow ops true lqs).1 = (computeFlow ops true lqs).2.reverse) := by
  refine ⟨fun lqs => checkIfMirrorExtended_monotone lqs, fun wa cl lqs => ?_, fun lqs => ?_⟩
  · rw [forwardV_snd]; exact checkIfMirrorExtended_monotone lqs
  · simp [computeFlow]

/-- C5.  Alignment control flow in `propagate`: at step index 0 the
alignment stage is a pass-through (so the state entering the
backbone/fusion stage at the first processed frame is the zero
initialization), it is a pass-through at every step when no alignment
backend is available, and in that case the deformable-alignment
sub-network is never invoked (the propagation result does not depend on
it at all). -/
theorem alignment_skip_policy {T : Type} :
    (∀ (ops : VOps T) (dir : Dir) (wa : Bool) (flows sofar : List T) (fc st : T),
      alignStage ops dir wa flows sofar fc 0 st = st) ∧
    (∀ (ops : VOps T) (dir : Dir) (flows sofar : List T) (fc st : T) (i : Nat),
      alignStage ops dir false flows sofar fc i st = st) ∧
    (∀ ctx : PCtx T, fusionInputAt ctx 0 = ctx.ops.newZeros) ∧
    (∀ (ctx : PCtx T) (g : Dir → T → T → T → T → T), ctx.withAlignment = false →
      propagate { ctx with ops := { ctx.ops with deformAlign := g } } = propagate ctx) :=
  ⟨fun ops dir wa flows sofar fc st => alignStage_at_zero ops dir wa flows sofar fc st,
   fun ops dir flows sofar fc st i => alignStage_noAlignment ops dir flows sofar fc st i,
   fun ctx => fusionInputAt_zero ctx,
   fun ctx g hwa => propagate_deformAlign_irrelevant ctx g hwa⟩

/-! ## Channel-level model of `SecondOrderDeformableAlignment.forward`

The offset computation (source lines 488-496) acts independently at
every spatial position and batch element, so a tensor is modelled by its
list of channels at one position, with exact rationals for the float
values.  `torch.tanh` and `torch.sigmoid` enter as opaque scalar
functions; the only fact used about `tanh` is the bound `|tanh x| <= 1`,
which every implementation of the hyperbolic tangent satisfies. -/

/-- The chunk size `torch.chunk(x, k, dim=1)` uses: ceiling division of
the channel count. -/
def chunkSize (len k : Nat) : Nat := (len + k - 1) / k

/-- `torch.chunk(x, 3, dim=1)` on the channel list. -/
def pychunk3 {α : Type} (l : List α) : List α × List α × List α :=
  let s := chunkSize l.length 3
  (l.take s, (l.drop s).take s, (l.drop s).drop s)

/-- `torch.chunk(x, 2, dim=1)` on the channel list. -/
def pychunk2 {α : Type} (l : List α) : List α × List α :=
  let s := chunkSize l.length 2
  (l.take s, l.drop s)

/-- `x.repeat(1, k, 1, 1)`: tile the channel list `k` times. -/
def channelTile {α : Type} (k : Nat) (l : List α) : List α :=
  (List.replicate k l).flatten

/-- The offset/mask computation of
`SecondOrderDeformableAlignment.forward` after `out = conv_offset(...)`:
chunk `out` in three (`o1, o2, mask`), bound the offset residuals by
`max_residue_magnitude * tanh`, chunk in two, add each half to the
channel-reversed, channel-tiled corresponding flow, re-concatenate, and
pass the mask through a sigmoid. -/
def alignOffsets (M : ℚ) (tanh sigmoid : ℚ → ℚ)
    (convOffsetOut flow1 flow2 : List ℚ) : List ℚ × List ℚ :=
  let c := pychunk3 convOffsetOut
  let offset := (c.1 ++ c.2.1).map (fun x => M * tanh x)
  let halves := pychunk2 offset
  let offset1 := List.zipWith (fun a b => a + b) halves.1
    (channelTile (halves.1.length / 2) flow1.reverse)
  let offset2 := List.zipWith (fun a b => a + b) halves.2
    (channelTile (halves.2.length / 2) flow2.reverse)
  (offset1 ++ offset2, c.2.2.map sigmoid)

/-- The same offsets as the design document describes them: each
regressed residual component bounded through the scaled hyperbolic
tangent and added to its flow component, the flow channel-order reversed
and tiled across the offset group count. -/
def alignOffsetsSpec (M : ℚ) (tanh : ℚ → ℚ) (o1 o2 flow1 flow2 : List ℚ)
    (tiles : Nat) : List ℚ :=
  List.zipWith (fun x f => M * tanh x + f) o1 (channelTile tiles flow1.reverse) ++
  List.zipWith (fun x f => M * tanh x + f) o2 (channelTile tiles flow2.reverse)

theorem channelTile_length {α : Type} (k : Nat) (l : List α) :
    (channelTile k l).length = k * l.length := by
  simp [channelTile, List.length_flatten, List.map_replicate, List.sum_replicate,
    smul_eq_mul]

theorem pychunk2_map_append (f : ℚ → ℚ) (a b : List ℚ) (h : a.length = b.length) :
    pychunk2 ((a ++ b).map f) = (a.map f, b.map f) := by
  have hsz : chunkSize (List.map f a ++ List.map f b).length 2 = (List.map f a).length := by
    unfold chunkSize
    simp only [List.length_append, List.length_map, h]
    omega
  simp only [pychunk2, List.map_append, hsz, List.take_left, List.drop_left]

/-- C8.  In every alignment invocation, each regressed offset-residual
component is bounded to `[-M, M]` via the `M`-scaled hyperbolic tangent,
and the final sampling offsets are exactly the bounded residuals added
componentwise to the corresponding flow field with channel order
reversed and tiled across the offset groups (`alignOffsetsSpec`). -/
theorem offset_residuals_tanh_bounded (g : Nat) (M : ℚ) (tanh sigmoid : ℚ → ℚ)
    (convOffsetOut flow1 flow2 : List ℚ)
    (hout : convOffsetOut.length = 27 * g)
    (htanh : ∀ x, |tanh x| ≤ 1) (hM : 0 ≤ M)
    (hf1 : flow1.length = 2) (hf2 : flow2.length = 2) (heven : g % 2 = 0) :
    (alignOffsets M tanh sigmoid convOffsetOut flow1 flow2).1
      = alignOffsetsSpec M tanh (pychunk3 convOffsetOut).1
          (pychunk3 convOffsetOut).2.1 flow1 flow2 (9 * g / 2)
    ∧ (∀ x ∈ (pychunk3 convOffsetOut).1 ++ (pychunk3 convOffsetOut).2.1,
        |M * tanh x| ≤ M)
    ∧ (alignOffsets M tanh sigmoid convOffsetOut flow1 flow2).1.length = 18 * g := by
  have h3 : chunkSize (27 * g) 3 = 9 * g := by
    unfold chunkSize
    omega
  have hlen1 : (pychunk3 convOffsetOut).1.length = 9 * g := by
    simp only [pychunk3, List.length_take, hout, h3]
    omega
  have hlen2 : (pychunk3 convOffsetOut).2.1.length = 9 * g := by
    simp only [pychunk3, List.length_take, List.length_drop, hout, h3]
    omega
  have hkey : pychunk2 (((pychunk3 convOffsetOut).1 ++ (pychunk3 convOffsetOut).2.1).map
        (fun x => M * tanh x))
      = ((pychunk3 convOffsetOut).1.map (fun x => M * tanh x),
         (pychunk3 convOffsetOut).2.1.map (fun x => M * tanh x)) :=
    pychunk2_map_append _ _ _ (hlen1.trans hlen2.symm)
  have hform : (alignOffsets M tanh sigmoid convOffsetOut flow1 flow2).1
      = alignOffsetsSpec M tanh (pychunk3 convOffsetOut).1
          (pychunk3 convOffsetOut).2.1 flow1 flow2 (9 * g / 2) := by
    simp only [alignOffsets, alignOffsetsSpec, hkey, List.length_map, hlen1, hlen2,
      List.zipWith_map_left]
  refine ⟨hform, ?_, ?_⟩
  · intro x _
    rw [abs_mul, abs_of_nonneg hM]
    exact mul_le_of_le_one_right hM (htanh x)
  · rw [hform]
    unfold alignOffsetsSpec
    rw [List.length_append, List.length_zipWith, List.length_zipWith,
      channelTile_length, channelTile_length, List.length_reverse, List.length_reverse,
      hlen1, hlen2, hf1, hf2]
    omega

/-- Witness for `offset_residuals_tanh_bounded` at a concrete
27*2-channel regression output with a clamp-style bounded activation. -/
theorem offset_residuals_tanh_bounded_witness :
    (alignOffsets 10 (fun _ => 1/2) (fun x => x) (List.replicate 54 (1:ℚ)) [1, 2] [3, 4]).1
      = alignOffsetsSpec 10 (fun _ => 1/2) (pychunk3 (List.replicate 54 (1:ℚ))).1
          (pychunk3 (List.replicate 54 (1:ℚ))).2.1 [1, 2] [3, 4] (9 * 2 / 2)
    ∧ (∀ x ∈ (pychunk3 (List.replicate 54 (1:ℚ))).1 ++ (pychunk3 (List.replicate 54 (1:ℚ))).2.1,
        |(10:ℚ) * (fun _ => (1:ℚ)/2) x| ≤ 10)
    ∧ (alignOffsets 10 (fun _ => 1/2) (fun x => x)
        (List.replicate 54 (1:ℚ)) [1, 2] [3, 4]).1.length = 18 * 2 :=
  offset_residuals_tanh_bounded 2 10 (fun _ => 1/2) (fun x => x)
    (List.replicate 54 (1:ℚ)) [1, 2] [3, 4] (by simp)
    (fun x => by rw [abs_le]; constructor <;> norm_num) (by norm_num) rfl rfl rfl

/-! ## Construction-time name-resolution model (`MFRSR.__init__`) -/

/-- The names bound in the module scope of `dlkcnet_arch.py` when
`MFRSR.__init__` runs: the imports at the top of the file and the
classes the file itself defines.  The name `MultiScaleAttention`, which
the `is_low_res_input=False` branch of `__init__` references, is not
among them, so that branch raises a `NameError`. -/
def moduleScopeNames : List String :=
  ["torch", "nn", "F", "torchvision", "warnings", "flow_warp",
   "ConvResidualBlocks", "ConvResidualBlocksModified", "SpyNet",
   "ModulatedDeformConvPack", "ARCH_REGISTRY", "TSAFusion", "DeformConv2d",
   "MultiScaleSmallKernelConvAndAttention",
   "MultiScaleLargeKernelConvAndAttention", "MFRSR",
   "SecondOrderDeformableAlignment"]

/-- Construction failure: Python's `NameError` for an unresolvable name. -/
inductive InitError
  | nameError (missing : String)
deriving DecidableEq

/-- The configuration a successfully constructed `MFRSR` instance
carries (the constructor arguments plus `is_with_alignment`, which is
true exactly when the accelerated deformable-convolution backend - CUDA -
is available; otherwise a one-time warning is raised and every alignment
step is skipped). -/
structure Cfg where
  midChannels : Nat
  numBlocks : Nat
  maxResidueMagnitude : Nat
  isLowResInput : Bool
  cpuCacheLength : Nat
  withAlignment : Bool
deriving DecidableEq

/-- `MFRSR.__init__`: the `is_low_res_input` branch selects the feature
extractors; the `False` branch evaluates `MultiScaleAttention(mid_channels)`,
whose name must resolve in the module scope. -/
def initMFRSR (mid numBlocks maxRes : Nat) (isLowRes : Bool) (cacheLen : Nat)
    (cudaAvailable : Bool) : Except InitError Cfg :=
  if isLowRes then
    .ok { midChannels := mid, numBlocks := numBlocks, maxResidueMagnitude := maxRes,
          isLowResInput := true, cpuCacheLength := cacheLen,
          withAlignment := cudaAvailable }
  else if moduleScopeNames.contains ("MultiScaleAttention") then
    .ok { midChannels := mid, numBlocks := numBlocks, maxResidueMagnitude := maxRes,
          isLowResInput := false, cpuCacheLength := cacheLen,
          withAlignment := cudaAvailable }
  else .error (.nameError ("MultiScaleAttention"))

/-- C10.  Construction with `is_low_res_input=False` always raises a
`NameError` for `MultiScaleAttention`, so every instance that exists is
a low-res-input instance, and the forward pass's feature-extraction path
is unreachable in the high-res mode. -/
theorem highres_construction_fails :
    (∀ (mid numBlocks maxRes cacheLen : Nat) (cuda : Bool),
      initMFRSR mid numBlocks maxRes false cacheLen cuda
        = .error (.nameError ("MultiScaleAttention"))) ∧
    (∀ (mid numBlocks maxRes : Nat) (lr : Bool) (cacheLen : Nat) (cuda : Bool) (cfg : Cfg),
      initMFRSR mid numBlocks maxRes lr cacheLen cuda = .ok cfg →
      cfg.isLowResInput = true ∧ lr = true) := by
  constructor
  · intro mid numBlocks maxRes cacheLen cuda
    rfl
  · intro mid numBlocks maxRes lr cacheLen cuda cfg h
    cases lr with
    | true =>
      simp only [initMFRSR, if_true, Except.ok.injEq] at h
      exact ⟨by rw [← h], rfl⟩
    | false =>
      have hrw : initMFRSR mid numBlocks maxRes false cacheLen cuda
          = .error (.nameError ("MultiScaleAttention")) := rfl
      rw [hrw] at h
      exact absurd h (by simp)

/-! ## Shape-level model

A 4-D tensor `(n, c, h, w)` is modelled by its shape `Sh`, a 5-D tensor
`(n, t, c, h, w)` by `Sh5`.  Every operator becomes the shape
transformer PyTorch gives it, and the shape checks PyTorch performs
(`torch.cat` and `torch.stack` arity/shape agreement, convolution input
channels, minimum spatial extent, `assert` statements, list indexing)
become `Except Err` errors, tagged by constructor.  Device movement
(`.cuda()`, `.cpu()`, `torch.cuda.empty_cache()`) changes no shape and
is not modelled. -/

/-- The shape of a 4-D tensor `(n, c, h, w)`. -/
structure Sh where
  n : Nat
  c : Nat
  h : Nat
  w : Nat
deriving DecidableEq

/-- The shape of a 5-D sequence tensor `(n, t, c, h, w)`. -/
structure Sh5 where
  n : Nat
  t : Nat
  c : Nat
  h : Nat
  w : Nat
deriving DecidableEq

/-- The runtime failures the shape-level forward pass can surface. -/
inductive Err
  | convChannelMismatch
  | convOutputEmpty
  | catMismatch
  | addMismatch
  | mulMismatch
  | stackMismatch
  | fusionChannelMismatch
  | spynetMismatch
  | warpMismatch
  | pixelShuffleChannels
  | indexOutOfRange
  | popFromEmpty
  | emptyCat
  | emptyStack
  | alignMismatch
  | assertLowRes (h w : Nat)
deriving DecidableEq

/-- Python list indexing (negative indices count from the end); an index
out of range raises. -/
def pyGet {α : Type} (l : List α) (i : Int) : Except Err α :=
  let j := if 0 ≤ i then i else i + l.length
  if 0 ≤ j ∧ j < (l.length : Int) then
    match l.get? j.toNat with
    | some a => .ok a
    | none => .error .indexOutOfRange
  else .error .indexOutOfRange

/-- `nn.Conv2d(cin, cout, k, stride=1, padding=p)`: requires `cin` input
channels and a non-empty output extent; output spatial size is
`h + 2p - k + 1` (stride 1). -/
def conv2dSh (cin cout k p : Nat) (x : Sh) : Except Err Sh :=
  if x.c ≠ cin then .error .convChannelMismatch
  else if x.h + 2 * p < k ∨ x.w + 2 * p < k then .error .convOutputEmpty
  else .ok ⟨x.n, cout, x.h + 2 * p - k + 1, x.w + 2 * p - k + 1⟩

/-- Elementwise addition of two tensors of the same shape (every
addition the forward pass performs is between same-shape tensors). -/
def addSh (a b : Sh) : Except Err Sh :=
  if a = b then .ok a else .error .addMismatch

/-- Elementwise product (the attention gate `features * attention_map`). -/
def mulSh (a b : Sh) : Except Err Sh :=
  if a = b then .ok a else .error .mulMismatch

/-- `torch.cat(l, dim=1)`: all non-channel dimensions must agree
exactly; channel counts add. -/
def catChannelSh (l : List Sh) : Except Err Sh :=
  match l with
  | [] => .error .emptyCat
  | x :: xs =>
    if xs.all (fun y => y.n == x.n && y.h == x.h && y.w == x.w) then
      .ok ⟨x.n, (l.map Sh.c).sum, x.h, x.w⟩
    else .error .catMismatch

/-- Shape contract of the external collaborator `SpyNet` (basicsr): two
equal-shaped 3-channel frame batches produce a 2-channel displacement
field of the same batch and spatial size. -/
def spynetSh (a b : Sh) : Except Err Sh :=
  if a = b ∧ a.c = 3 then .ok ⟨a.n, 2, a.h, a.w⟩ else .error .spynetMismatch

/-- Shape contract of the external collaborator `flow_warp` (basicsr):
the flow must be a 2-channel field matching the batch and spatial size
of `x`; the result has the shape of `x`. -/
def flowWarpSh (x flow : Sh) : Except Err Sh :=
  if flow.n = x.n ∧ flow.c = 2 ∧ flow.h = x.h ∧ flow.w = x.w then .ok x
  else .error .warpMismatch

/-- `nn.PixelShuffle(2)`: channels divide by 4, spatial size doubles. -/
def pixelShuffleSh (x : Sh) : Except Err Sh :=
  if x.c % 4 = 0 then .ok ⟨x.n, x.c / 4, 2 * x.h, 2 * x.w⟩
  else .error .pixelShuffleChannels

/-- `nn.Upsample(scale_factor=4, mode='bilinear')`. -/
def imgUpsampleSh (x : Sh) : Sh := ⟨x.n, x.c, 4 * x.h, 4 * x.w⟩

/-- `F.interpolate(x, size=(h, w), mode='bilinear')`. -/
def interpToSh (x : Sh) (h w : Nat) : Sh := ⟨x.n, x.c, h, w⟩

/-- Shape contract of the external collaborators `ConvResidualBlocks`
and `ConvResidualBlocksModified` (basicsr): a stride-1 3x3 convolution
from `cin` to `cout` channels followed by spatial-size-preserving
residual blocks. -/
def convResidualBlocksSh (cin cout : Nat) (x : Sh) : Except Err Sh :=
  conv2dSh cin cout 3 1 x

/-- Modelled from the spec: `DeformConv2d` comes from this repository's
`deform_conv_arch` module, which is not under `src/`; the design
document (section 4.2) describes it as a deformable convolution with the
stated kernel size and padding, so its shape behaviour is the standard
stride-1 convolution shape rule. -/
def deformConv2dSh (cin cout k p : Nat) (x : Sh) : Except Err Sh :=
  conv2dSh cin cout k p x

/-- `MultiScaleSmallKernelConvAndAttention.forward` at shape level:
three same-channel deformable convolutions (1x1, 3x3, 5x5), summed,
three attention convolutions, summed and sigmoided (shape-preserving),
multiplicative gate plus residual. -/
def multiScaleSmallSh (cch : Nat) (x : Sh) : Except Err Sh := do
  let x1 ← deformConv2dSh cch cch 1 0 x
  let x2 ← deformConv2dSh cch cch 3 1 x
  let x3 ← deformConv2dSh cch cch 5 2 x
  let s12 ← addSh x1 x2
  let ms ← addSh s12 x3
  let a1 ← conv2dSh cch cch 1 0 ms
  let a2 ← conv2dSh cch cch 3 1 ms
  let a3 ← conv2dSh cch cch 5 2 ms
  let s12' ← addSh a1 a2
  let att ← addSh s12' a3
  let gated ← mulSh ms att
  addSh gated ms

/-- `MultiScaleLargeKernelConvAndAttention.forward` at shape level:
deformable convolutions 7x7, 11x11, 13x13; the first two outputs are
bilinearly resized to the third's spatial size before summation. -/
def multiScaleLargeSh (cch : Nat) (x : Sh) : Except Err Sh := do
  let x1 ← deformConv2dSh cch cch 7 3 x
  let x2 ← deformConv2dSh cch cch 11 5 x
  let x3 ← deformConv2dSh cch cch 13 6 x
  let x1 := interpToSh x1 x3.h x3.w
  let x2 := interpToSh x2 x3.h x3.w
  let s12 ← addSh x1 x2
  let ms ← addSh s12 x3
  let a1 ← conv2dSh cch cch 1 0 ms
  let a2 ← conv2dSh cch cch 3 1 ms
  let a3 ← conv2dSh cch cch 5 2 ms
  let s12' ← addSh a1 a2
  let att ← addSh s12' a3
  let gated ← mulSh ms att
  addSh gated ms

/-- `self.feat_extract1 = nn.Sequential(ConvResidualBlocks(3, mid, 5),
MultiScaleSmallKernelConvAndAttention(mid))`. -/
def featExtract1Sh (mid : Nat) (x : Sh) : Except Err Sh := do
  multiScaleSmallSh mid (← convResidualBlocksSh 3 mid x)

/-- `self.feat_extract2 = nn.Sequential(ConvResidualBlocksModified(3, mid, 5),
MultiScaleLargeKernelConvAndAttention(mid))`. -/
def featExtract2Sh (mid : Nat) (x : Sh) : Except Err Sh := do
  multiScaleLargeSh mid (← convResidualBlocksSh 3 mid x)

/-- One spatial-feature computation of `MFRSR.forward`:
`feats_1 = feat_extract1(v)`, `feats_2` interpolated to `feats_1`'s
spatial size, and the sum. -/
def featPairSh (mid : Nat) (v : Sh) : Except Err Sh := do
  let f1 ← featExtract1Sh mid v
  let f2 ← featExtract2Sh mid v
  addSh f1 (interpToSh f2 f1.h f1.w)

/-- The spatial-feature stage of `MFRSR.forward`.  With the CPU-cache
policy active (`t > cpu_cache_length`), the loop body computes the
features of the whole flattened clip `lqs.view(-1, c, h, w)` and appends
that same `(n*t, mid, h, w)` tensor for every frame index.  Without it,
the same flattened computation is viewed back to `(n, t, -1, h, w)` and
sliced per frame, so each frame's feature has batch size `n`. -/
def spatialFeatsSh (mid cacheLen : Nat) (x : Sh5) : Except Err (List Sh) := do
  let cpuCache := decide (cacheLen < x.t)
  let v : Sh := ⟨x.n * x.t, x.c, x.h, x.w⟩
  let f ← featPairSh mid v
  if cpuCache then
    pure (List.replicate x.t f)
  else
    pure (List.replicate x.t ⟨x.n, f.c, f.h, f.w⟩)

/-- The shape of a packed flow tensor `(n, t - 1, 2, h, w)`. -/
structure FlowsSh where
  n : Nat
  tm1 : Nat
  h : Nat
  w : Nat
deriving DecidableEq

/-- `MFRSR.compute_flow` at shape level: SPyNet on the
`(n*(t-1), c, h, w)` stacked consecutive-pair batches, viewed back to
`(n, t-1, 2, h, w)`.  The mirror branch (`flip(1)`) and the
recomputation branch produce the same shape, so the flag does not
appear. -/
def computeFlowSh (x : Sh5) : Except Err FlowsSh := do
  let pair : Sh := ⟨x.n * (x.t - 1), x.c, x.h, x.w⟩
  let fb ← spynetSh pair pair
  pure ⟨x.n, x.t - 1, fb.h, fb.w⟩

/-- `flows[:, j, :, :, :]` (Python indexing along the time axis). -/
def flowSliceSh (f : FlowsSh) (i : Int) : Except Err Sh :=
  let j := if 0 ≤ i then i else i + f.tm1
  if 0 ≤ j ∧ j < (f.tm1 : Int) then .ok ⟨f.n, 2, f.h, f.w⟩
  else .error .indexOutOfRange

/-- `modules = ['backward_1', 'forward_1']`; the backbone of branch `i`
is `ConvResidualBlocks((1 + i) * mid_channels, mid_channels, num_blocks)`. -/
def backboneCin (mid : Nat) (dir : Dir) : Nat := (dir.index + 1) * mid

/-- `torch.stack([a, b], dim=1)` followed by
`TSAFusion(num_feat=mid, num_frame=2)`: stacking needs the two shapes
equal, the fusion block needs `mid` feature channels; the result has the
stacked shape. -/
def stackFusionSh (mid : Nat) (a b : Sh) : Except Err Sh :=
  if a = b then
    if a.c = mid then .ok a else .error .fusionChannelMismatch
  else .error .stackMismatch

/-- `SecondOrderDeformableAlignment(2*mid, mid, 3, padding=1,
deformable_groups=16, ...)` at shape level: the propagated-state input
carries `2*mid` channels, the conditioning tensor `3*mid` (its
`conv_offset` head expects `3*mid + 4` after the two flows are
concatenated), both flows are 2-channel fields of matching size; the
deformable convolution outputs `mid` channels at the same spatial size. -/
def deformAlignSh (mid : Nat) (x cond f1 f2 : Sh) : Except Err Sh :=
  if cond.n = x.n ∧ cond.h = x.h ∧ cond.w = x.w
      ∧ f1 = (⟨x.n, 2, x.h, x.w⟩ : Sh) ∧ f2 = (⟨x.n, 2, x.h, x.w⟩ : Sh)
      ∧ x.c = 2 * mid ∧ cond.c = 3 * mid then
    .ok ⟨x.n, mid, x.h, x.w⟩
  else .error .alignMismatch

/-- The inputs of one call of `MFRSR.propagate` at shape level. -/
structure PCtxSh where
  cfg : Cfg
  dir : Dir
  spatial : List Sh
  others : List (List Sh)
  flows : FlowsSh
deriving DecidableEq

/-- The second-order deformable alignment stage of one loop iteration of
`MFRSR.propagate`, shape level (the body of
`if i > 0 and self.is_with_alignment`, a pass-through otherwise).  In
the `i <= 1` case the second-order tensors are
`torch.zeros_like(feat_prop)`, `torch.zeros_like(flow_n1)` and
`torch.zeros_like(cond_n1)`, whose shapes are those of `feat_prop`,
`flow_n1` and `cond_n1`. -/
def alignStageSh (ctx : PCtxSh) (sofar : List Sh) (featCurrent : Sh) (i : Nat) (st : Sh) :
    Except Err Sh :=
  if 0 < i ∧ ctx.cfg.withAlignment then do
    let fIdx := flowIdxList ctx.flows.tm1 ctx.dir.isBackward
    let flow_n1 ← flowSliceSh ctx.flows (← pyGet fIdx (i : Int))
    let cond_n1 ← flowWarpSh st flow_n1
    let second ←
      if 1 < i then do
        let feat_n2 ← pyGet sofar (-2)
        let flow_raw ← flowSliceSh ctx.flows (← pyGet fIdx ((i - 1 : Nat) : Int))
        let w1 ← flowWarpSh flow_raw flow_n1
        let flow_n2 ← addSh flow_n1 w1
        let cond_n2 ← flowWarpSh feat_n2 flow_n2
        pure (feat_n2, flow_n2, cond_n2)
      else
        pure (st, flow_n1, cond_n1)
    let cond ← catChannelSh [cond_n1, featCurrent, second.2.2]
    let feat_cat ← catChannelSh [st, second.1]
    deformAlignSh ctx.cfg.midChannels feat_cat cond flow_n1 second.2.1
  else pure st

/-- One iteration of the propagation loop at shape level. -/
def propagateStepSh (ctx : PCtxSh) (s : Sh × List Sh) (p : Nat × Nat) :
    Except Err (Sh × List Sh) := do
  let mi ← pyGet (mappingIdx ctx.spatial.length) (p.2 : Int)
  let featCurrent ← pyGet ctx.spatial (mi : Int)
  let aligned ← alignStageSh ctx s.2 featCurrent p.1 s.1
  let lastFeat ← ctx.others.mapM (fun l => pyGet l (p.2 : Int))
  let catted ← catChannelSh (featCurrent :: lastFeat)
  let featB ← convResidualBlocksSh (backboneCin ctx.cfg.midChannels ctx.dir)
    ctx.cfg.midChannels catted
  let fused ← stackFusionSh ctx.cfg.midChannels featB aligned
  let featProp ← addSh aligned fused
  pure (featProp, s.2 ++ [featProp])

/-- `MFRSR.propagate` at shape level: fold over `enumerate(frame_idx)`
starting from `flows.new_zeros(n, mid_channels, h, w)`, reversing the
produced list for a backward branch. -/
def propagateSh (ctx : PCtxSh) : Except Err (List Sh) := do
  let st0 : Sh := ⟨ctx.flows.n, ctx.cfg.midChannels, ctx.flows.h, ctx.flows.w⟩
  let res ← (enumSteps ctx.flows.tm1 ctx.dir.isBackward).foldlM (propagateStepSh ctx) (st0, [])
  pure (if ctx.dir.isBackward then res.2.reverse else res.2)

/-- One frame of `MFRSR.upsample` at shape level: concatenation,
reconstruction blocks, `upconv1`/pixel-shuffle, `upconv2`/pixel-shuffle,
`conv_hr`, `conv_last`, then the residual skip (4x-upsampled input frame
in low-res-input mode, the raw frame otherwise). -/
def upFrameSh (cfg : Cfg) (lqFrame : Sh) (spatialFeat : Sh) (popped : List Sh) :
    Except Err Sh := do
  let hr ← catChannelSh (spatialFeat :: popped)
  let hr ← convResidualBlocksSh (3 * cfg.midChannels) cfg.midChannels hr
  let hr ← conv2dSh cfg.midChannels (cfg.midChannels * 4) 3 1 hr
  let hr ← pixelShuffleSh hr
  let hr ← conv2dSh cfg.midChannels (64 * 4) 3 1 hr
  let hr ← pixelShuffleSh hr
  let hr ← conv2dSh 64 64 3 1 hr
  let hr ← conv2dSh 64 3 3 1 hr
  if cfg.isLowResInput then addSh hr (imgUpsampleSh lqFrame)
  else addSh hr lqFrame

/-- The loop of `MFRSR.upsample` at shape level, popping the head of
each direction list once per output frame (`feats[k].pop(0)` in
dictionary order: backward_1 then forward_1); returns the outputs and
what remains of the two lists. -/
def upsampleGoSh (cfg : Cfg) (lqFrame : Sh) (spatial : List Sh) :
    Nat → Nat → List Sh → List Sh → Except Err (List Sh × List Sh × List Sh)
  | 0, _, b1, f1 => .ok ([], b1, f1)
  | k + 1, i, b1, f1 =>
    match b1, f1 with
    | hb :: b1rest, hf :: f1rest => do
      let mi ← pyGet (mappingIdx spatial.length) (i : Int)
      let sp ← pyGet spatial (mi : Int)
      let hr ← upFrameSh cfg lqFrame sp [hb, hf]
      let rest ← upsampleGoSh cfg lqFrame spatial k (i + 1) b1rest f1rest
      pure (hr :: rest.1, rest.2)
    | _, _ => .error .popFromEmpty

/-- `torch.stack(outputs, dim=1)`: a non-empty list of equal shapes. -/
def stackFramesSh (outs : List Sh) : Except Err Sh5 :=
  match outs with
  | [] => .error .emptyStack
  | x :: xs =>
    if xs.all (fun y => y == x) then .ok ⟨x.n, outs.length, x.c, x.h, x.w⟩
    else .error .stackMismatch

/-- The feature lists of the forward pass at the moment reconstruction
begins: the input, the read-only spatial features, and the two
directions' propagated lists. -/
structure PreUp where
  lq : Sh5
  spatial : List Sh
  b1 : List Sh
  f1 : List Sh
deriving DecidableEq

/-- `MFRSR.forward` up to (excluding) `upsample`, shape level, in the
source's order: spatial features, the minimum-size assertion on the
low-res input, `compute_flow`, then the backward and forward propagation
branches (the forward branch reads the completed backward list).  The
mirror check touches no shape. -/
def forwardFeatsSh (cfg : Cfg) (x : Sh5) : Except Err PreUp := do
  let downH := if cfg.isLowResInput then x.h else x.h / 4
  let downW := if cfg.isLowResInput then x.w else x.w / 4
  let spatial ← spatialFeatsSh cfg.midChannels cfg.cpuCacheLength x
  if downH < 64 ∨ downW < 64 then .error (.assertLowRes downH downW)
  else do
    let flows ← computeFlowSh ⟨x.n, x.t, x.c, downH, downW⟩
    let b1 ← propagateSh
      { cfg := cfg, dir := .backward1, spatial := spatial, others := [], flows := flows }
    let f1 ← propagateSh
      { cfg := cfg, dir := .forward1, spatial := spatial, others := [b1], flows := flows }
    pure ⟨x, spatial, b1, f1⟩

/-- `MFRSR.upsample` at shape level: the stacked per-frame outputs plus
the drained direction lists. -/
def upsampleSh (cfg : Cfg) (pre : PreUp) : Except Err (Sh5 × List Sh × List Sh) := do
  let frame : Sh := ⟨pre.lq.n, pre.lq.c, pre.lq.h, pre.lq.w⟩
  let res ← upsampleGoSh cfg frame pre.spatial pre.lq.t 0 pre.b1 pre.f1
  let out ← stackFramesSh res.1
  pure (out, res.2)

/-- `MFRSR.forward` at shape level. -/
def forwardSh (cfg : Cfg) (x : Sh5) : Except Err Sh5 := do
  let pre ← forwardFeatsSh cfg x
  let res ← upsampleSh cfg pre
  pure res.1

/-! ### Monadic helper lemmas -/

@[simp]
theorem okBind {α β : Type} (a : α) (f : α → Except Err β) :
    ((Except.ok a : Except Err α) >>= f) = f a := rfl

@[simp]
theorem pureBind {α β : Type} (a : α) (f : α → Except Err β) :
    ((pure a : Except Err α) >>= f) = f a := rfl

@[simp]
theorem errBind {α β : Type} (e : Err) (f : α → Except Err β) :
    ((Except.error e : Except Err α) >>= f) = .error e := rfl

theorem bindOk {α β : Type} {m : Except Err α} {f : α → Except Err β} {b : β}
    (h : (m >>= f) = .ok b) : ∃ a, m = .ok a ∧ f a = .ok b := by
  cases m with
  | ok a => exact ⟨a, rfl, h⟩
  | error e => exact absurd h (by simp)

theorem mapOk {α β : Type} {g : α → β} {m : Except Err α} {b : β}
    (h : (g <$> m) = .ok b) : ∃ a, m = .ok a ∧ g a = b := by
  cases m with
  | ok a =>
    refine ⟨a, rfl, ?_⟩
    have : (Except.ok (g a) : Except Err β) = .ok b := h
    exact Except.ok.inj this
  | error e => exact absurd h (by simp [Functor.map, Except.map])

theorem addSh_ok_iff {a b r : Sh} : addSh a b = .ok r ↔ (a = b ∧ r = a) := by
  unfold addSh
  constructor
  · intro h
    by_cases hab : a = b
    · rw [if_pos hab] at h
      exact ⟨hab, (Except.ok.injEq _ _ ▸ h).symm⟩
    · rw [if_neg hab] at h
      exact absurd h (by simp)
  · rintro ⟨hab, hr⟩
    rw [if_pos hab, hr]

/-! ### Shape lemmas for the primitive operators -/

theorem conv2dSh_same (cin cout k p : Nat) (hk : k = 2 * p + 1) (x : Sh)
    (hc : x.c = cin) (hh : 1 ≤ x.h) (hw : 1 ≤ x.w) :
    conv2dSh cin cout k p x = .ok ⟨x.n, cout, x.h, x.w⟩ := by
  subst hk
  have h0 : ¬ x.c ≠ cin := by simp [hc]
  have h1 : ¬(x.h + 2 * p < 2 * p + 1 ∨ x.w + 2 * p < 2 * p + 1) := by omega
  have hh2 : x.h + 2 * p - (2 * p + 1) + 1 = x.h := by omega
  have hw2 : x.w + 2 * p - (2 * p + 1) + 1 = x.w := by omega
  unfold conv2dSh
  rw [if_neg h0, if_neg h1, hh2, hw2]

theorem addSh_self (a : Sh) : addSh a a = .ok a := by
  simp [addSh]

theorem mulSh_self (a : Sh) : mulSh a a = .ok a := by
  simp [mulSh]

theorem multiScaleSmallSh_ok (cch n h w : Nat) (hh : 1 ≤ h) (hw : 1 ≤ w) :
    multiScaleSmallSh cch ⟨n, cch, h, w⟩ = .ok ⟨n, cch, h, w⟩ := by
  have c1 : conv2dSh cch cch 1 0 ⟨n, cch, h, w⟩ = .ok ⟨n, cch, h, w⟩ := by
    simpa using conv2dSh_same cch cch 1 0 rfl ⟨n, cch, h, w⟩ rfl hh hw
  have c3 : conv2dSh cch cch 3 1 ⟨n, cch, h, w⟩ = .ok ⟨n, cch, h, w⟩ := by
    simpa using conv2dSh_same cch cch 3 1 rfl ⟨n, cch, h, w⟩ rfl hh hw
  have c5 : conv2dSh cch cch 5 2 ⟨n, cch, h, w⟩ = .ok ⟨n, cch, h, w⟩ := by
    simpa using conv2dSh_same cch cch 5 2 rfl ⟨n, cch, h, w⟩ rfl hh hw
  unfold multiScaleSmallSh deformConv2dSh
  rw [c1]
  simp only [okBind]
  rw [c3]
  simp only [okBind]
  rw [c5]
  simp only [okBind, addSh_self, okBind, c1, c3, c5, mulSh_self]

theorem multiScaleLargeSh_ok (cch n h w : Nat) (hh : 1 ≤ h) (hw : 1 ≤ w) :
    multiScaleLargeSh cch ⟨n, cch, h, w⟩ = .ok ⟨n, cch, h, w⟩ := by
  have c1 : conv2dSh cch cch 1 0 ⟨n, cch, h, w⟩ = .ok ⟨n, cch, h, w⟩ := by
    simpa using conv2dSh_same cch cch 1 0 rfl ⟨n, cch, h, w⟩ rfl hh hw
  have c3 : conv2dSh cch cch 3 1 ⟨n, cch, h, w⟩ = .ok ⟨n, cch, h, w⟩ := by
    simpa using conv2dSh_same cch cch 3 1 rfl ⟨n, cch, h, w⟩ rfl hh hw
  have c5 : conv2dSh cch cch 5 2 ⟨n, cch, h, w⟩ = .ok ⟨n, cch, h, w⟩ := by
    simpa using conv2dSh_same cch cch 5 2 rfl ⟨n, cch, h, w⟩ rfl hh hw
  have c7 : conv2dSh cch cch 7 3 ⟨n, cch, h, w⟩ = .ok ⟨n, cch, h, w⟩ := by
    simpa using conv2dSh_same cch cch 7 3 rfl ⟨n, cch, h, w⟩ rfl hh hw
  have c11 : conv2dSh cch cch 11 5 ⟨n, cch, h, w⟩ = .ok ⟨n, cch, h, w⟩ := by
    simpa using conv2dSh_same cch cch 11 5 rfl ⟨n, cch, h, w⟩ rfl hh hw
  have c13 : conv2dSh cch cch 13 6 ⟨n, cch, h, w⟩ = .ok ⟨n, cch, h, w⟩ := by
    simpa using conv2dSh_same cch cch 13 6 rfl ⟨n, cch, h, w⟩ rfl hh hw
  unfold multiScaleLargeSh deformConv2dSh
  rw [c7]
  simp only [okBind]
  rw [c11]
  simp only [okBind]
  rw [c13]
  simp only [okBind, interpToSh, addSh_self, okBind, c1, c3, c5, mulSh_self]

theorem featPairSh_ok (mid b h w : Nat) (hh : 1 ≤ h) (hw : 1 ≤ w) :
    featPairSh mid ⟨b, 3, h, w⟩ = .ok ⟨b, mid, h, w⟩ := by
  have crb : conv2dSh 3 mid 3 1 ⟨b, 3, h, w⟩ = .ok ⟨b, mid, h, w⟩ := by
    simpa using conv2dSh_same 3 mid 3 1 rfl ⟨b, 3, h, w⟩ rfl hh hw
  unfold featPairSh featExtract1Sh featExtract2Sh convResidualBlocksSh
  rw [crb]
  simp only [okBind]
  rw [multiScaleSmallSh_ok mid b h w hh hw]
  simp only [okBind]
  rw [multiScaleLargeSh_ok mid b h w hh hw]
  simp only [okBind, interpToSh, addSh_self]

theorem spatialFeatsSh_cache (mid cacheLen : Nat) (x : Sh5) (hcl : cacheLen < x.t)
    (hc : x.c = 3) (hh : 1 ≤ x.h) (hw : 1 ≤ x.w) :
    spatialFeatsSh mid cacheLen x
      = .ok (List.replicate x.t ⟨x.n * x.t, mid, x.h, x.w⟩) := by
  simp only [spatialFeatsSh, hc]
  rw [featPairSh_ok mid (x.n * x.t) x.h x.w hh hw]
  simp [hcl]

theorem spatialFeatsSh_nocache (mid cacheLen : Nat) (x : Sh5) (hcl : ¬ cacheLen < x.t)
    (hc : x.c = 3) (hh : 1 ≤ x.h) (hw : 1 ≤ x.w) :
    spatialFeatsSh mid cacheLen x
      = .ok (List.replicate x.t ⟨x.n, mid, x.h, x.w⟩) := by
  simp only [spatialFeatsSh, hc]
  rw [featPairSh_ok mid (x.n * x.t) x.h x.w hh hw]
  simp [hcl]

theorem computeFlowSh_ok (x : Sh5) (hc : x.c = 3) :
    computeFlowSh x = .ok ⟨x.n, x.t - 1, x.h, x.w⟩ := by
  simp [computeFlowSh, spynetSh, hc]

/-! ### Indexing lemmas -/

theorem pyGet_some {α : Type} {l : List α} {k : Nat} {a : α} (h : l[k]? = some a) :
    pyGet l (k : Int) = .ok a := by
  have hk : k < l.length := (List.getElem?_eq_some.mp h).1
  simp only [pyGet]
  rw [if_pos (Int.natCast_nonneg k), if_pos ⟨Int.natCast_nonneg k, by exact_mod_cast hk⟩]
  rw [Int.toNat_natCast, List.get?_eq_getElem?, h]

theorem pyGet_neg2 {α : Type} {l : List α} {a : α} (hl : 2 ≤ l.length)
    (h : l[l.length - 2]? = some a) : pyGet l (-2) = .ok a := by
  simp only [pyGet]
  have hj : (if (0:Int) ≤ -2 then (-2:Int) else -2 + l.length) = -2 + l.length := by
    norm_num
  rw [hj, if_pos (by constructor <;> omega)]
  have ht : ((-2 : Int) + l.length).toNat = l.length - 2 := by omega
  rw [ht, List.get?_eq_getElem?, h]

theorem pyGet_all_neg2 {α : Type} {l : List α} {σ : α} (hall : ∀ y ∈ l, y = σ)
    (hl : 2 ≤ l.length) : pyGet l (-2) = .ok σ := by
  apply pyGet_neg2 hl
  have hlt : l.length - 2 < l.length := by omega
  rw [List.getElem?_eq_getElem hlt]
  exact congrArg some (hall _ (List.getElem_mem hlt))

theorem pyGet_replicate {α : Type} {σ : α} {m k : Nat} (hk : k < m) :
    pyGet (List.replicate m σ) (k : Int) = .ok σ := by
  apply pyGet_some
  simp [List.getElem?_replicate, hk]

theorem pyGet_mappingIdx {len k : Nat} (hk : k < len) :
    pyGet (mappingIdx len) (k : Int) = .ok k := by
  apply pyGet_some
  unfold mappingIdx
  rw [List.getElem?_append]
  simp [List.getElem?_range, List.length_range, hk]

theorem flowIdxList_bwd_get {t i : Nat} (hi : i < t + 1) :
    pyGet (flowIdxList t true) (i : Int) = .ok ((t - i : Nat) : Int) := by
  apply pyGet_some
  unfold flowIdxList
  rw [if_pos rfl, List.getElem?_map, List.getElem?_reverse (by simpa using hi)]
  simp only [List.length_range]
  have h1 : t + 1 - 1 - i = t - i := by omega
  rw [List.getElem?_range (by omega), h1]
  rfl

theorem flowIdxList_fwd_get {t i : Nat} (hi : i < t + 1) :
    pyGet (flowIdxList t false) (i : Int) = .ok ((i : Int) - 1) := by
  apply pyGet_some
  unfold flowIdxList
  rw [if_neg (by simp), List.getElem?_map, List.getElem?_range hi]
  rfl

theorem flowSliceSh_nat {f : FlowsSh} {k : Nat} (hk : k < f.tm1) :
    flowSliceSh f (k : Int) = .ok ⟨f.n, 2, f.h, f.w⟩ := by
  simp only [flowSliceSh]
  have hj : (if (0:Int) ≤ (k : Int) then (k : Int) else (k : Int) + f.tm1)
      = (k : Int) := if_pos (by omega)
  rw [hj, if_pos ⟨by omega, by omega⟩]

/-! ### Concatenation / stack lemmas -/

theorem catChannelSh_cons_replicate (m : Nat) (σ : Sh) :
    catChannelSh (σ :: List.replicate m σ) = .ok ⟨σ.n, (m + 1) * σ.c, σ.h, σ.w⟩ := by
  simp only [catChannelSh]
  rw [if_pos ?cond]
  case cond =>
    simp only [List.all_eq_true]
    intro y hy
    have hyσ := List.eq_of_mem_replicate hy
    subst hyσ
    simp
  have hsum : ((σ :: List.replicate m σ).map Sh.c).sum = (m + 1) * σ.c := by
    simp [List.map_replicate, List.sum_replicate, smul_eq_mul, Nat.succ_mul, Nat.add_comm]
  rw [hsum]

theorem stackFramesSh_replicate (m : Nat) (σ : Sh) :
    stackFramesSh (List.replicate (m + 1) σ) = .ok ⟨σ.n, m + 1, σ.c, σ.h, σ.w⟩ := by
  rw [List.replicate_succ]
  simp only [stackFramesSh]
  rw [if_pos ?cond]
  case cond =>
    simp only [List.all_eq_true]
    intro y hy
    have hyσ := List.eq_of_mem_replicate hy
    subst hyσ
    simp
  simp

theorem stackFusionSh_self (mid : Nat) (σ : Sh) (hc : σ.c = mid) :
    stackFusionSh mid σ σ = .ok σ := by
  simp [stackFusionSh, hc]

theorem catChannelSh_single (σ : Sh) : catChannelSh [σ] = .ok σ := by
  simpa using catChannelSh_cons_replicate 0 σ

theorem catChannelSh_pair (σ : Sh) : catChannelSh [σ, σ] = .ok ⟨σ.n, 2 * σ.c, σ.h, σ.w⟩ := by
  simpa using catChannelSh_cons_replicate 1 σ

theorem catChannelSh_triple (σ : Sh) :
    catChannelSh [σ, σ, σ] = .ok ⟨σ.n, 3 * σ.c, σ.h, σ.w⟩ := by
  simpa using catChannelSh_cons_replicate 2 σ

theorem flowWarpSh_ok (x : Sh) : flowWarpSh x ⟨x.n, 2, x.h, x.w⟩ = .ok x := by
  simp [flowWarpSh]

theorem flowWarpSh_rec (n c h w : Nat) :
    flowWarpSh ⟨n, c, h, w⟩ ⟨n, 2, h, w⟩ = .ok ⟨n, c, h, w⟩ := by
  simp [flowWarpSh]

theorem deformAlignSh_ok (mid n h w : Nat) :
    deformAlignSh mid ⟨n, 2 * mid, h, w⟩ ⟨n, 3 * mid, h, w⟩ ⟨n, 2, h, w⟩ ⟨n, 2, h, w⟩
      = .ok ⟨n, mid, h, w⟩ := by
  simp [deformAlignSh]

/-! ### The alignment stage succeeds and preserves the state shape -/

theorem alignStageSh_ok (ctx : PCtxSh) (σ : Sh)
    (hσ : σ = ⟨ctx.flows.n, ctx.cfg.midChannels, ctx.flows.h, ctx.flows.w⟩)
    (sofar : List Sh) (hsofar : ∀ y ∈ sofar, y = σ)
    (j : Nat) (hj : j ≤ ctx.flows.tm1) (hlen : sofar.length = j) :
    alignStageSh ctx sofar σ j σ = .ok σ := by
  by_cases hcond : 0 < j ∧ ctx.cfg.withAlignment
  case neg =>
    simp only [alignStageSh]
    rw [if_neg hcond]
    rfl
  case pos =>
    have hj1 : 0 < j := hcond.1
    have ht1 : 1 ≤ ctx.flows.tm1 := le_trans hj1 hj
    simp only [alignStageSh]
    rw [if_pos hcond]
    -- the first-order flow slice
    cases hdir : ctx.dir.isBackward with
    | true =>
      rw [flowIdxList_bwd_get (by omega : j < ctx.flows.tm1 + 1)]
      simp only [okBind]
      rw [flowSliceSh_nat (show ctx.flows.tm1 - j < ctx.flows.tm1 by omega)]
      simp only [okBind]
      rw [hσ, flowWarpSh_ok]
      simp only [okBind]
      by_cases hj2 : 1 < j
      case pos =>
        rw [if_pos hj2]
        rw [pyGet_all_neg2 (fun y hy => (hsofar y hy).trans hσ) (by omega)]
        simp only [okBind]
        rw [flowIdxList_bwd_get (by omega : j - 1 < ctx.flows.tm1 + 1)]
        simp only [okBind]
        rw [flowSliceSh_nat (show ctx.flows.tm1 - (j - 1) < ctx.flows.tm1 by omega)]
        simp only [okBind]
        rw [flowWarpSh_rec]
        simp only [okBind]
        rw [addSh_self]
        simp only [okBind]
        rw [flowWarpSh_rec]
        simp only [okBind, pureBind]
        rw [catChannelSh_triple, catChannelSh_pair]
        simp only [okBind]
        simpa using deformAlignSh_ok ctx.cfg.midChannels ctx.flows.n ctx.flows.h ctx.flows.w
      case neg =>
        rw [if_neg hj2]
        simp only [pureBind]
        rw [catChannelSh_triple, catChannelSh_pair]
        simp only [okBind]
        simpa using deformAlignSh_ok ctx.cfg.midChannels ctx.flows.n ctx.flows.h ctx.flows.w
    | false =>
      rw [flowIdxList_fwd_get (by omega : j < ctx.flows.tm1 + 1)]
      simp only [okBind]
      have hc1 : ((j : Int) - 1) = ((j - 1 : Nat) : Int) := by omega
      rw [hc1, flowSliceSh_nat (show j - 1 < ctx.flows.tm1 by omega)]
      simp only [okBind]
      rw [hσ, flowWarpSh_ok]
      simp only [okBind]
      by_cases hj2 : 1 < j
      case pos =>
        rw [if_pos hj2]
        rw [pyGet_all_neg2 (fun y hy => (hsofar y hy).trans hσ) (by omega)]
        simp only [okBind]
        rw [flowIdxList_fwd_get (by omega : j - 1 < ctx.flows.tm1 + 1)]
        simp only [okBind]
        have hc2 : ((j - 1 : Nat) : Int) - 1 = ((j - 2 : Nat) : Int) := by omega
        rw [hc2, flowSliceSh_nat (show j - 2 < ctx.flows.tm1 by omega)]
        simp only [okBind]
        rw [flowWarpSh_rec]
        simp only [okBind]
        rw [addSh_self]
        simp only [okBind]
        rw [flowWarpSh_rec]
        simp only [okBind, pureBind]
        rw [catChannelSh_triple, catChannelSh_pair]
        simp only [okBind]
        simpa using deformAlignSh_ok ctx.cfg.midChannels ctx.flows.n ctx.flows.h ctx.flows.w
      case neg =>
        rw [if_neg hj2]
        simp only [pureBind]
        rw [catChannelSh_triple, catChannelSh_pair]
        simp only [okBind]
        simpa using deformAlignSh_ok ctx.cfg.midChannels ctx.flows.n ctx.flows.h ctx.flows.w

/-! ### One loop iteration of `propagate` succeeds with invariant shapes -/

theorem propagateStepSh_ok (ctx : PCtxSh) (σ : Sh) (k : Nat)
    (hσ : σ = ⟨ctx.flows.n, ctx.cfg.midChannels, ctx.flows.h, ctx.flows.w⟩)
    (hh : 1 ≤ ctx.flows.h) (hw : 1 ≤ ctx.flows.w)
    (hspatial : ctx.spatial = List.replicate (ctx.flows.tm1 + 1) σ)
    (hoth : ∀ idx : Nat, idx ≤ ctx.flows.tm1 →
      ctx.others.mapM (fun l => pyGet l (idx : Int)) = .ok (List.replicate k σ))
    (hcin : backboneCin ctx.cfg.midChannels ctx.dir = (k + 1) * ctx.cfg.midChannels)
    (j idx : Nat) (hidx : idx ≤ ctx.flows.tm1) (hj : j ≤ ctx.flows.tm1)
    (acc : List Sh) (hacc : ∀ y ∈ acc, y = σ) (hlen : acc.length = j) :
    propagateStepSh ctx (σ, acc) (j, idx) = .ok (σ, acc ++ [σ]) := by
  have halign := alignStageSh_ok ctx σ hσ acc hacc j hj hlen
  have hsl : ctx.spatial.length = ctx.flows.tm1 + 1 := by
    rw [hspatial, List.length_replicate]
  simp only [propagateStepSh]
  rw [hsl, pyGet_mappingIdx (show idx < ctx.flows.tm1 + 1 by omega)]
  simp only [okBind]
  rw [hspatial, pyGet_replicate (show idx < ctx.flows.tm1 + 1 by omega)]
  simp only [okBind]
  rw [halign]
  simp only [okBind]
  rw [hoth idx hidx]
  simp only [okBind]
  rw [catChannelSh_cons_replicate k σ]
  simp only [okBind]
  subst hσ
  have hb : convResidualBlocksSh (backboneCin ctx.cfg.midChannels ctx.dir)
      ctx.cfg.midChannels
      ⟨ctx.flows.n, (k + 1) * ctx.cfg.midChannels, ctx.flows.h, ctx.flows.w⟩
      = .ok ⟨ctx.flows.n, ctx.cfg.midChannels, ctx.flows.h, ctx.flows.w⟩ := by
    unfold convResidualBlocksSh
    rw [hcin]
    simpa using conv2dSh_same ((k + 1) * ctx.cfg.midChannels) ctx.cfg.midChannels 3 1 rfl
      ⟨ctx.flows.n, (k + 1) * ctx.cfg.midChannels, ctx.flows.h, ctx.flows.w⟩ rfl hh hw
  rw [hb]
  simp only [okBind]
  rw [stackFusionSh_self ctx.cfg.midChannels _ rfl]
  simp only [okBind]
  rw [addSh_self]
  simp only [okBind]
  rfl

/-! ### The whole propagation loop succeeds -/

theorem propagateLoop_ok (ctx : PCtxSh) (σ : Sh) (k : Nat)
    (hσ : σ = ⟨ctx.flows.n, ctx.cfg.midChannels, ctx.flows.h, ctx.flows.w⟩)
    (hh : 1 ≤ ctx.flows.h) (hw : 1 ≤ ctx.flows.w)
    (hspatial : ctx.spatial = List.replicate (ctx.flows.tm1 + 1) σ)
    (hoth : ∀ idx : Nat, idx ≤ ctx.flows.tm1 →
      ctx.others.mapM (fun l => pyGet l (idx : Int)) = .ok (List.replicate k σ))
    (hcin : backboneCin ctx.cfg.midChannels ctx.dir = (k + 1) * ctx.cfg.midChannels) :
    ∀ (l : List Nat) (j : Nat) (acc : List Sh),
      (∀ idx ∈ l, idx ≤ ctx.flows.tm1) → (∀ y ∈ acc, y = σ) → acc.length = j →
      j + l.length ≤ ctx.flows.tm1 + 1 →
      (List.enumFrom j l).foldlM (propagateStepSh ctx) (σ, acc)
        = .ok (σ, acc ++ List.replicate l.length σ) := by
  intro l
  induction l with
  | nil =>
    intro j acc _ _ _ _
    simp only [List.enumFrom, List.foldlM, List.length_nil, List.replicate_zero,
      List.append_nil]
    rfl
  | cons idx rest ih =>
    intro j acc hbound hacc hlen hcount
    have hstep := propagateStepSh_ok ctx σ k hσ hh hw hspatial hoth hcin j idx
      (hbound idx (List.mem_cons_self idx rest)) (by simp at hcount; omega)
      acc hacc hlen
    rw [List.enumFrom_cons, List.foldlM_cons, hstep]
    simp only [okBind]
    rw [ih (j + 1) (acc ++ [σ])
      (fun i hi => hbound i (List.mem_cons_of_mem idx hi))
      (by intro y hy
          rcases List.mem_append.mp hy with h1 | h1
          · exact hacc y h1
          · simpa using h1)
      (by simp [hlen])
      (by simp at hcount ⊢; omega)]
    simp [List.append_assoc, List.replicate_succ]

theorem propagateSh_ok (ctx : PCtxSh) (σ : Sh) (k : Nat)
    (hσ : σ = ⟨ctx.flows.n, ctx.cfg.midChannels, ctx.flows.h, ctx.flows.w⟩)
    (hh : 1 ≤ ctx.flows.h) (hw : 1 ≤ ctx.flows.w)
    (hspatial : ctx.spatial = List.replicate (ctx.flows.tm1 + 1) σ)
    (hoth : ∀ idx : Nat, idx ≤ ctx.flows.tm1 →
      ctx.others.mapM (fun l => pyGet l (idx : Int)) = .ok (List.replicate k σ))
    (hcin : backboneCin ctx.cfg.midChannels ctx.dir = (k + 1) * ctx.cfg.midChannels) :
    propagateSh ctx = .ok (List.replicate (ctx.flows.tm1 + 1) σ) := by
  have hfr : ∀ idx ∈ frameIdxList ctx.flows.tm1 ctx.dir.isBackward,
      idx ≤ ctx.flows.tm1 := by
    intro idx hidx
    unfold frameIdxList at hidx
    split at hidx
    · rw [List.mem_reverse] at hidx
      have := List.mem_range.mp hidx
      omega
    · have := List.mem_range.mp hidx
      omega
  have hflen : (frameIdxList ctx.flows.tm1 ctx.dir.isBackward).length
      = ctx.flows.tm1 + 1 := by
    unfold frameIdxList
    split <;> simp
  have hloop := propagateLoop_ok ctx σ k hσ hh hw hspatial hoth hcin
    (frameIdxList ctx.flows.tm1 ctx.dir.isBackward) 0 [] hfr (by simp) rfl
    (by rw [hflen]; omega)
  simp only [propagateSh, enumSteps, List.enum]
  rw [← hσ, hloop]
  simp only [okBind, List.nil_append, hflen]
  split
  · simp only [List.reverse_replicate]
    rfl
  · rfl
/-! ### The reconstruction head succeeds with the expected shapes -/

theorem pixelShuffleSh_mul4 (n c h w : Nat) :
    pixelShuffleSh ⟨n, c * 4, h, w⟩ = .ok ⟨n, c, 2 * h, 2 * w⟩ := by
  have hdiv : c * 4 / 4 = c := by omega
  simp [pixelShuffleSh, Nat.mul_mod_left, hdiv]

theorem upFrameSh_ok (cfg : Cfg) (hlow : cfg.isLowResInput = true) (n h w : Nat)
    (hh : 1 ≤ h) (hw : 1 ≤ w) :
    upFrameSh cfg ⟨n, 3, h, w⟩ ⟨n, cfg.midChannels, h, w⟩
      [⟨n, cfg.midChannels, h, w⟩, ⟨n, cfg.midChannels, h, w⟩] = .ok ⟨n, 3, 4 * h, 4 * w⟩ := by
  have hcat := catChannelSh_triple (⟨n, cfg.midChannels, h, w⟩ : Sh)
  have hrec : convResidualBlocksSh (3 * cfg.midChannels) cfg.midChannels
      ⟨n, 3 * cfg.midChannels, h, w⟩ = .ok ⟨n, cfg.midChannels, h, w⟩ := by
    unfold convResidualBlocksSh
    simpa using conv2dSh_same (3 * cfg.midChannels) cfg.midChannels 3 1 rfl
      ⟨n, 3 * cfg.midChannels, h, w⟩ rfl hh hw
  have hup1 : conv2dSh cfg.midChannels (cfg.midChannels * 4) 3 1 ⟨n, cfg.midChannels, h, w⟩
      = .ok ⟨n, cfg.midChannels * 4, h, w⟩ := by
    simpa using conv2dSh_same cfg.midChannels (cfg.midChannels * 4) 3 1 rfl
      ⟨n, cfg.midChannels, h, w⟩ rfl hh hw
  have hup2 : conv2dSh cfg.midChannels (64 * 4) 3 1 ⟨n, cfg.midChannels, 2 * h, 2 * w⟩
      = .ok ⟨n, 64 * 4, 2 * h, 2 * w⟩ := by
    simpa using conv2dSh_same cfg.midChannels (64 * 4) 3 1 rfl
      ⟨n, cfg.midChannels, 2 * h, 2 * w⟩ rfl (show (1:Nat) ≤ 2 * h by omega)
      (show (1:Nat) ≤ 2 * w by omega)
  have hps2 : pixelShuffleSh ⟨n, 64 * 4, 2 * h, 2 * w⟩ = .ok ⟨n, 64, 2 * (2 * h), 2 * (2 * w)⟩ :=
    pixelShuffleSh_mul4 n 64 (2 * h) (2 * w)
  have hhr : conv2dSh 64 64 3 1 ⟨n, 64, 2 * (2 * h), 2 * (2 * w)⟩
      = .ok ⟨n, 64, 2 * (2 * h), 2 * (2 * w)⟩ := by
    simpa using conv2dSh_same 64 64 3 1 rfl
      ⟨n, 64, 2 * (2 * h), 2 * (2 * w)⟩ rfl (show (1:Nat) ≤ 2 * (2 * h) by omega)
      (show (1:Nat) ≤ 2 * (2 * w) by omega)
  have hlast : conv2dSh 64 3 3 1 ⟨n, 64, 2 * (2 * h), 2 * (2 * w)⟩
      = .ok ⟨n, 3, 2 * (2 * h), 2 * (2 * w)⟩ := by
    simpa using conv2dSh_same 64 3 3 1 rfl
      ⟨n, 64, 2 * (2 * h), 2 * (2 * w)⟩ rfl (show (1:Nat) ≤ 2 * (2 * h) by omega)
      (show (1:Nat) ≤ 2 * (2 * w) by omega)
  simp only [upFrameSh]
  rw [hcat]
  simp only [okBind]
  rw [hrec]
  simp only [okBind]
  rw [hup1]
  simp only [okBind]
  rw [pixelShuffleSh_mul4]
  simp only [okBind]
  rw [hup2]
  simp only [okBind]
  rw [hps2]
  simp only [okBind]
  rw [hhr]
  simp only [okBind]
  rw [hlast]
  simp only [okBind]
  rw [if_pos hlow]
  have h4h : 2 * (2 * h) = 4 * h := by ring
  have h4w : 2 * (2 * w) = 4 * w := by ring
  rw [h4h, h4w]
  simp only [imgUpsampleSh]
  exact addSh_self _

theorem upsampleGoSh_ok (cfg : Cfg) (hlow : cfg.isLowResInput = true)
    (n h w t : Nat) (hh : 1 ≤ h) (hw : 1 ≤ w) :
    ∀ (kk i : Nat) (b1 f1 : List Sh),
      (∀ y ∈ b1, y = (⟨n, cfg.midChannels, h, w⟩ : Sh)) →
      (∀ y ∈ f1, y = (⟨n, cfg.midChannels, h, w⟩ : Sh)) →
      kk ≤ b1.length → kk ≤ f1.length → i + kk ≤ t →
      upsampleGoSh cfg ⟨n, 3, h, w⟩ (List.replicate t ⟨n, cfg.midChannels, h, w⟩) kk i b1 f1
        = .ok (List.replicate kk ⟨n, 3, 4 * h, 4 * w⟩, b1.drop kk, f1.drop kk) := by
  intro kk
  induction kk with
  | zero =>
    intro i b1 f1 _ _ _ _ _
    rfl
  | succ kk ih =>
    intro i b1 f1 hb1 hf1 hlb hlf hit
    cases b1 with
    | nil => simp at hlb
    | cons hb b1rest =>
    cases f1 with
    | nil => simp at hlf
    | cons hf f1rest =>
    have hhb : hb = (⟨n, cfg.midChannels, h, w⟩ : Sh) := hb1 hb (by simp)
    have hhf : hf = (⟨n, cfg.midChannels, h, w⟩ : Sh) := hf1 hf (by simp)
    simp only [upsampleGoSh]
    rw [List.length_replicate, pyGet_mappingIdx (show i < t by omega)]
    simp only [okBind]
    rw [pyGet_replicate (show i < t by omega)]
    simp only [okBind]
    rw [hhb, hhf, upFrameSh_ok cfg hlow n h w hh hw]
    simp only [okBind]
    rw [ih (i + 1) b1rest f1rest
      (fun y hy => hb1 y (by simp [hy]))
      (fun y hy => hf1 y (by simp [hy]))
      (by simpa using hlb) (by simpa using hlf) (by omega)]
    simp only [okBind, pureBind, List.drop_succ_cons]
    rw [← List.replicate_succ]
    rfl


/-! ### The forward pass succeeds on the well-formed path -/

theorem forwardFeatsSh_ok (mid nb mr cacheLen : Nat) (wa : Bool) (n t h w : Nat)
    (ht : 1 ≤ t) (hh : 64 ≤ h) (hw : 64 ≤ w) (hsp : t ≤ cacheLen ∨ n * t = n) :
    forwardFeatsSh ⟨mid, nb, mr, true, cacheLen, wa⟩ ⟨n, t, 3, h, w⟩
      = .ok ⟨⟨n, t, 3, h, w⟩, List.replicate t ⟨n, mid, h, w⟩,
             List.replicate t ⟨n, mid, h, w⟩, List.replicate t ⟨n, mid, h, w⟩⟩ := by
  have hh1 : 1 ≤ h := by omega
  have hw1 : 1 ≤ w := by omega
  have htt : t - 1 + 1 = t := by omega
  have hspat : spatialFeatsSh mid cacheLen ⟨n, t, 3, h, w⟩
      = .ok (List.replicate t ⟨n, mid, h, w⟩) := by
    by_cases hcl : cacheLen < t
    · have hnt : n * t = n := by
        rcases hsp with h1 | h1
        · omega
        · exact h1
      have hc := spatialFeatsSh_cache mid cacheLen ⟨n, t, 3, h, w⟩ hcl rfl hh1 hw1
      simpa [hnt] using hc
    · simpa using spatialFeatsSh_nocache mid cacheLen ⟨n, t, 3, h, w⟩ hcl rfl hh1 hw1
  have hflow : computeFlowSh ⟨n, t, 3, h, w⟩ = .ok ⟨n, t - 1, h, w⟩ := by
    simpa using computeFlowSh_ok ⟨n, t, 3, h, w⟩ rfl
  have hb1 : propagateSh
      { cfg := ⟨mid, nb, mr, true, cacheLen, wa⟩, dir := .backward1,
        spatial := List.replicate t ⟨n, mid, h, w⟩, others := [],
        flows := ⟨n, t - 1, h, w⟩ }
      = .ok (List.replicate t ⟨n, mid, h, w⟩) := by
    have hp := propagateSh_ok
      { cfg := ⟨mid, nb, mr, true, cacheLen, wa⟩, dir := .backward1,
        spatial := List.replicate t ⟨n, mid, h, w⟩, others := [],
        flows := ⟨n, t - 1, h, w⟩ } ⟨n, mid, h, w⟩ 0 rfl hh1 hw1
      (by rw [show ((⟨n, t - 1, h, w⟩ : FlowsSh).tm1 + 1) = t from htt])
      (fun idx _ => rfl) rfl
    rw [hp, show ((⟨n, t - 1, h, w⟩ : FlowsSh).tm1 + 1) = t from htt]
  have hf1 : propagateSh
      { cfg := ⟨mid, nb, mr, true, cacheLen, wa⟩, dir := .forward1,
        spatial := List.replicate t ⟨n, mid, h, w⟩,
        others := [List.replicate t ⟨n, mid, h, w⟩],
        flows := ⟨n, t - 1, h, w⟩ }
      = .ok (List.replicate t ⟨n, mid, h, w⟩) := by
    have hp := propagateSh_ok
      { cfg := ⟨mid, nb, mr, true, cacheLen, wa⟩, dir := .forward1,
        spatial := List.replicate t ⟨n, mid, h, w⟩,
        others := [List.replicate t ⟨n, mid, h, w⟩],
        flows := ⟨n, t - 1, h, w⟩ } ⟨n, mid, h, w⟩ 1 rfl hh1 hw1
      (by rw [show ((⟨n, t - 1, h, w⟩ : FlowsSh).tm1 + 1) = t from htt])
      (by intro idx hidx
          have hlt : idx < t := by
            have : idx ≤ t - 1 := hidx
            omega
          simp [List.mapM, List.mapM.loop, pyGet_replicate hlt])
      rfl
    rw [hp, show ((⟨n, t - 1, h, w⟩ : FlowsSh).tm1 + 1) = t from htt]
  simp only [forwardFeatsSh, if_true]
  rw [hspat]
  simp only [okBind]
  rw [if_neg (show ¬(h < 64 ∨ w < 64) by omega)]
  rw [hflow]
  simp only [okBind]
  rw [hb1]
  simp only [okBind]
  rw [hf1]
  simp only [okBind]
  rfl

theorem upsampleSh_ok (mid nb mr cacheLen : Nat) (wa : Bool) (n t h w : Nat)
    (ht : 1 ≤ t) (hh : 1 ≤ h) (hw : 1 ≤ w) :
    upsampleSh ⟨mid, nb, mr, true, cacheLen, wa⟩
      ⟨⟨n, t, 3, h, w⟩, List.replicate t ⟨n, mid, h, w⟩,
       List.replicate t ⟨n, mid, h, w⟩, List.replicate t ⟨n, mid, h, w⟩⟩
      = .ok (⟨n, t, 3, 4 * h, 4 * w⟩, [], []) := by
  have hgo := upsampleGoSh_ok ⟨mid, nb, mr, true, cacheLen, wa⟩ rfl n h w t hh hw t 0
    (List.replicate t ⟨n, mid, h, w⟩) (List.replicate t ⟨n, mid, h, w⟩)
    (fun y hy => List.eq_of_mem_replicate hy) (fun y hy => List.eq_of_mem_replicate hy)
    (by simp) (by simp) (by omega)
  have hdrop : (List.replicate t (⟨n, mid, h, w⟩ : Sh)).drop t = [] := by
    simp
  rw [hdrop] at hgo
  have ht' : t = (t - 1) + 1 := by omega
  have hstack : stackFramesSh (List.replicate t (⟨n, 3, 4 * h, 4 * w⟩ : Sh))
      = .ok ⟨n, t, 3, 4 * h, 4 * w⟩ := by
    rw [ht', stackFramesSh_replicate (t - 1) ⟨n, 3, 4 * h, 4 * w⟩]
  simp only [upsampleSh]
  rw [hgo]
  simp only [okBind]
  rw [hstack]
  simp only [okBind]
  rfl

theorem forwardSh_ok (mid nb mr cacheLen : Nat) (wa : Bool) (n t h w : Nat)
    (ht : 1 ≤ t) (hh : 64 ≤ h) (hw : 64 ≤ w) (hsp : t ≤ cacheLen ∨ n * t = n) :
    forwardSh ⟨mid, nb, mr, true, cacheLen, wa⟩ ⟨n, t, 3, h, w⟩
      = .ok ⟨n, t, 3, 4 * h, 4 * w⟩ := by
  simp only [forwardSh]
  rw [forwardFeatsSh_ok mid nb mr cacheLen wa n t h w ht hh hw hsp]
  simp only [okBind]
  rw [upsampleSh_ok mid nb mr cacheLen wa n t h w ht (by omega) (by omega)]
  simp only [okBind]
  rfl

/-! ### The CPU-cache branch crashes the propagation stage

With the spill policy active every spatial feature is the feature of the
whole flattened clip, with batch size `n * t`; the very first
`torch.stack([feat_current, feat_prop], dim=1)` then mixes batch sizes
`n * t` and `n` and raises. -/

theorem alignStageSh_zero (ctx : PCtxSh) (sofar : List Sh) (fc st : Sh) :
    alignStageSh ctx sofar fc 0 st = .ok st := by
  simp only [alignStageSh]
  rw [if_neg (by simp)]
  rfl

theorem propagateSh_batch_mismatch (ctx : PCtxSh)
    (hdirb : ctx.dir = .backward1) (b : Nat)
    (hspatial : ctx.spatial
      = List.replicate (ctx.flows.tm1 + 1) ⟨b, ctx.cfg.midChannels, ctx.flows.h, ctx.flows.w⟩)
    (hothers : ctx.others = [])
    (hb : b ≠ ctx.flows.n) (hh : 1 ≤ ctx.flows.h) (hw : 1 ≤ ctx.flows.w) :
    propagateSh ctx = .error .stackMismatch := by
  have hdirTrue : ctx.dir.isBackward = true := by rw [hdirb]; rfl
  have hfr : frameIdxList ctx.flows.tm1 ctx.dir.isBackward
      = ctx.flows.tm1 :: (List.range ctx.flows.tm1).reverse := by
    rw [hdirTrue]
    unfold frameIdxList
    rw [if_pos rfl, List.range_succ, List.reverse_append]
    rfl
  have hsne : (⟨b, ctx.cfg.midChannels, ctx.flows.h, ctx.flows.w⟩ : Sh)
      ≠ (⟨ctx.flows.n, ctx.cfg.midChannels, ctx.flows.h, ctx.flows.w⟩ : Sh) := by
    intro hcon
    exact hb (congrArg Sh.n hcon)
  have hstep : propagateStepSh ctx
      (⟨ctx.flows.n, ctx.cfg.midChannels, ctx.flows.h, ctx.flows.w⟩, [])
      (0, ctx.flows.tm1) = .error .stackMismatch := by
    have hsl : ctx.spatial.length = ctx.flows.tm1 + 1 := by
      rw [hspatial, List.length_replicate]
    simp only [propagateStepSh]
    rw [hsl, pyGet_mappingIdx (Nat.lt_succ_self _)]
    simp only [okBind]
    rw [hspatial, pyGet_replicate (Nat.lt_succ_self _)]
    simp only [okBind]
    rw [alignStageSh_zero]
    simp only [okBind]
    rw [hothers]
    rw [show List.mapM (fun l => pyGet l ((ctx.flows.tm1 : Nat) : Int)) ([] : List (List Sh))
        = .ok [] from rfl]
    simp only [okBind]
    rw [catChannelSh_single]
    simp only [okBind]
    have hconv : convResidualBlocksSh (backboneCin ctx.cfg.midChannels ctx.dir)
        ctx.cfg.midChannels ⟨b, ctx.cfg.midChannels, ctx.flows.h, ctx.flows.w⟩
        = .ok ⟨b, ctx.cfg.midChannels, ctx.flows.h, ctx.flows.w⟩ := by
      rw [hdirb]
      unfold convResidualBlocksSh
      simpa using conv2dSh_same (backboneCin ctx.cfg.midChannels Dir.backward1)
        ctx.cfg.midChannels 3 1 rfl ⟨b, ctx.cfg.midChannels, ctx.flows.h, ctx.flows.w⟩
        (show ctx.cfg.midChannels = backboneCin ctx.cfg.midChannels Dir.backward1 by
          unfold backboneCin
          simp [Dir.index]) hh hw
    rw [hconv]
    simp only [okBind]
    unfold stackFusionSh
    rw [if_neg hsne]
    rfl
  simp only [propagateSh, enumSteps, hfr, List.enum_cons, List.foldlM_cons]
  rw [hstep]
  simp only [errBind]

theorem forwardSh_cache_error (mid nb mr cacheLen : Nat) (wa : Bool) (n t h w : Nat)
    (hh : 64 ≤ h) (hw : 64 ≤ w) (hcl : cacheLen < t) (hneq : n * t ≠ n) :
    forwardSh ⟨mid, nb, mr, true, cacheLen, wa⟩ ⟨n, t, 3, h, w⟩
      = .error .stackMismatch := by
  have hh1 : 1 ≤ h := by omega
  have hw1 : 1 ≤ w := by omega
  have hspat : spatialFeatsSh mid cacheLen ⟨n, t, 3, h, w⟩
      = .ok (List.replicate t ⟨n * t, mid, h, w⟩) := by
    simpa using spatialFeatsSh_cache mid cacheLen ⟨n, t, 3, h, w⟩ hcl rfl hh1 hw1
  have hflow : computeFlowSh ⟨n, t, 3, h, w⟩ = .ok ⟨n, t - 1, h, w⟩ := by
    simpa using computeFlowSh_ok ⟨n, t, 3, h, w⟩ rfl
  have hprop : propagateSh
      { cfg := ⟨mid, nb, mr, true, cacheLen, wa⟩, dir := .backward1,
        spatial := List.replicate t ⟨n * t, mid, h, w⟩, others := [],
        flows := ⟨n, t - 1, h, w⟩ } = .error .stackMismatch := by
    apply propagateSh_batch_mismatch _ rfl (n * t) ?_ rfl hneq hh1 hw1
    exact congrArg (fun k => List.replicate k (⟨n * t, mid, h, w⟩ : Sh))
      (show t = t - 1 + 1 by omega)
  simp only [forwardSh, forwardFeatsSh, if_true]
  rw [hspat]
  simp only [okBind]
  rw [if_neg (show ¬(h < 64 ∨ w < 64) by omega)]
  rw [hflow]
  simp only [okBind]
  rw [hprop]
  simp only [errBind]

/-! ### The minimum-size assertion -/

theorem forwardSh_assert (mid nb mr cacheLen : Nat) (wa : Bool) (n t h w : Nat)
    (hh1 : 1 ≤ h) (hw1 : 1 ≤ w) (hsmall : h < 64 ∨ w < 64) :
    forwardSh ⟨mid, nb, mr, true, cacheLen, wa⟩ ⟨n, t, 3, h, w⟩
      = .error (.assertLowRes h w) := by
  simp only [forwardSh, forwardFeatsSh, if_true]
  by_cases hcl : cacheLen < t
  · rw [show spatialFeatsSh mid cacheLen ⟨n, t, 3, h, w⟩
        = .ok (List.replicate t ⟨n * t, mid, h, w⟩) from by
      simpa using spatialFeatsSh_cache mid cacheLen ⟨n, t, 3, h, w⟩ hcl rfl hh1 hw1]
    simp only [okBind]
    rw [if_pos hsmall]
    simp only [errBind]
  · rw [show spatialFeatsSh mid cacheLen ⟨n, t, 3, h, w⟩
        = .ok (List.replicate t ⟨n, mid, h, w⟩) from by
      simpa using spatialFeatsSh_nocache mid cacheLen ⟨n, t, 3, h, w⟩ hcl rfl hh1 hw1]
    simp only [okBind]
    rw [if_pos hsmall]
    simp only [errBind]

/-! ### Inversion lemmas: what any successful run must look like -/

theorem pyGet_nil {α : Type} (i : Int) :
    pyGet ([] : List α) i = .error .indexOutOfRange := by
  by_cases h : (0:Int) ≤ i
  · simp only [pyGet, List.length_nil, Nat.cast_zero, if_pos h]
    rw [if_neg (by omega)]
  · simp only [pyGet, List.length_nil, Nat.cast_zero, if_neg h, add_zero]
    rw [if_neg (by omega)]

theorem conv2dSh_ok_cout {cin cout k p : Nat} {x r : Sh}
    (h : conv2dSh cin cout k p x = .ok r) : r.c = cout := by
  unfold conv2dSh at h
  split at h
  · exact absurd h (by simp)
  · split at h
    · exact absurd h (by simp)
    · rw [← Except.ok.inj h]

theorem upFrameSh_shape {cfg : Cfg} {fr sp : Sh} {popped : List Sh} {r : Sh}
    (hlow : cfg.isLowResInput = true) (h : upFrameSh cfg fr sp popped = .ok r) :
    r = ⟨fr.n, 3, 4 * fr.h, 4 * fr.w⟩ ∧ fr.c = 3 := by
  simp only [upFrameSh] at h
  obtain ⟨a1, h1, h⟩ := bindOk h
  obtain ⟨a2, h2, h⟩ := bindOk h
  obtain ⟨a3, h3, h⟩ := bindOk h
  obtain ⟨a4, h4, h⟩ := bindOk h
  obtain ⟨a5, h5, h⟩ := bindOk h
  obtain ⟨a6, h6, h⟩ := bindOk h
  obtain ⟨a7, h7, h⟩ := bindOk h
  obtain ⟨a8, h8, h⟩ := bindOk h
  rw [hlow] at h
  rw [if_pos rfl] at h
  have hadd := addSh_ok_iff.mp h
  have hc8 : a8.c = 3 := conv2dSh_ok_cout h8
  have hfc : fr.c = 3 := by
    have : (imgUpsampleSh fr).c = 3 := by rw [← hadd.1]; exact hc8
    simpa [imgUpsampleSh] using this
  refine ⟨?_, hfc⟩
  rw [hadd.2, hadd.1]
  simp [imgUpsampleSh, hfc]

theorem propagateStepSh_len {ctx : PCtxSh} {s s2 : Sh × List Sh} {p : Nat × Nat}
    (h : propagateStepSh ctx s p = .ok s2) :
    s2.2.length = s.2.length + 1 ∧ ctx.spatial ≠ [] := by
  simp only [propagateStepSh] at h
  obtain ⟨mi, hmi, h⟩ := bindOk h
  obtain ⟨fc, hfc, h⟩ := bindOk h
  obtain ⟨al, hal, h⟩ := bindOk h
  obtain ⟨lf, hlf, h⟩ := bindOk h
  obtain ⟨ct, hct, h⟩ := bindOk h
  obtain ⟨fb, hfb, h⟩ := bindOk h
  obtain ⟨fu, hfu, h⟩ := bindOk h
  obtain ⟨fp, hfp, h⟩ := bindOk h
  have hs2 : (fp, s.2 ++ [fp]) = s2 := Except.ok.inj h
  constructor
  · rw [← hs2]
    simp
  · intro hnil
    rw [hnil] at hmi
    rw [show mappingIdx ([] : List Sh).length = ([] : List Nat) from rfl, pyGet_nil] at hmi
    exact absurd hmi (by simp)

theorem foldlM_propagate_len {ctx : PCtxSh} :
    ∀ (l : List (Nat × Nat)) (s s2 : Sh × List Sh),
      l.foldlM (propagateStepSh ctx) s = .ok s2 →
      s2.2.length = s.2.length + l.length := by
  intro l
  induction l with
  | nil =>
    intro s s2 h
    rw [← Except.ok.inj h]
    simp
  | cons p rest ih =>
    intro s s2 h
    rw [List.foldlM_cons] at h
    obtain ⟨s1, h1, h⟩ := bindOk h
    have hl1 := (propagateStepSh_len h1).1
    have hl2 := ih s1 s2 h
    simp only [List.length_cons]
    omega

theorem propagateSh_len {ctx : PCtxSh} {l : List Sh} (h : propagateSh ctx = .ok l) :
    l.length = ctx.flows.tm1 + 1 ∧ ctx.spatial ≠ [] := by
  simp only [propagateSh] at h
  obtain ⟨res, hres, h⟩ := bindOk h
  have hlen := foldlM_propagate_len _ _ _ hres
  have helen : (enumSteps ctx.flows.tm1 ctx.dir.isBackward).length = ctx.flows.tm1 + 1 := by
    simp only [enumSteps, List.enum_length]
    unfold frameIdxList
    split <;> simp
  have hne : ctx.spatial ≠ [] := by
    obtain ⟨y, rest, hy⟩ := frameIdxList_cons ctx.flows.tm1 ctx.dir.isBackward
    rw [show enumSteps ctx.flows.tm1 ctx.dir.isBackward
        = (0, y) :: List.enumFrom 1 rest from by
      rw [enumSteps, hy, List.enum_cons], List.foldlM_cons] at hres
    obtain ⟨s1, h1, _⟩ := bindOk hres
    exact (propagateStepSh_len h1).2
  refine ⟨?_, hne⟩
  simp only [List.length_nil] at hlen
  have hl : (if ctx.dir.isBackward = true then res.2.reverse else res.2) = l :=
    Except.ok.inj h
  rw [← hl]
  split
  · rw [List.length_reverse]
    omega
  · omega

theorem computeFlowSh_fields {x : Sh5} {fl : FlowsSh} (h : computeFlowSh x = .ok fl) :
    fl.tm1 = x.t - 1 ∧ fl.n = x.n := by
  simp only [computeFlowSh] at h
  obtain ⟨fb, hfb, h⟩ := bindOk h
  rw [← Except.ok.inj h]
  exact ⟨rfl, rfl⟩

theorem spatialFeatsSh_len {mid cl : Nat} {x : Sh5} {s : List Sh}
    (h : spatialFeatsSh mid cl x = .ok s) : s.length = x.t := by
  simp only [spatialFeatsSh] at h
  obtain ⟨f, hf, h⟩ := bindOk h
  split at h <;> (rw [← Except.ok.inj h]; simp)

theorem forwardFeatsSh_shape {cfg : Cfg} {x : Sh5} {pre : PreUp}
    (h : forwardFeatsSh cfg x = .ok pre) :
    pre.lq = x ∧ pre.b1.length = x.t ∧ pre.f1.length = x.t := by
  simp only [forwardFeatsSh] at h
  obtain ⟨s, hs, h⟩ := bindOk h
  have hslen := spatialFeatsSh_len hs
  split at h
  all_goals
    split at h
    · exact absurd h (by simp)
    · obtain ⟨fl, hfl, h⟩ := bindOk h
      obtain ⟨b1, hb1, h⟩ := bindOk h
      obtain ⟨f1, hf1, hmk⟩ := mapOk h
      have htm : fl.tm1 = x.t - 1 := (computeFlowSh_fields hfl).1
      have hlb := propagateSh_len hb1
      have hlf := propagateSh_len hf1
      have hne : s ≠ [] := hlb.2
      have ht1 : 1 ≤ x.t := by
        have := List.length_pos.mpr hne
        omega
      have hb1len : b1.length = fl.tm1 + 1 := hlb.1
      have hf1len : f1.length = fl.tm1 + 1 := hlf.1
      rw [← hmk]
      refine ⟨rfl, ?_, ?_⟩
      · show b1.length = x.t
        omega
      · show f1.length = x.t
        omega

theorem stackFramesSh_of_all {outs : List Sh} {ω : Sh} {out : Sh5}
    (hall : ∀ o ∈ outs, o = ω) (h : stackFramesSh outs = .ok out) :
    out = ⟨ω.n, outs.length, ω.c, ω.h, ω.w⟩ := by
  cases outs with
  | nil => exact absurd h (by simp [stackFramesSh])
  | cons x xs =>
    have hx : x = ω := hall x (by simp)
    simp only [stackFramesSh] at h
    split at h
    · rw [← Except.ok.inj h, hx]
    · exact absurd h (by simp)

theorem upsampleGoSh_shape {cfg : Cfg} (hlow : cfg.isLowResInput = true)
    {fr : Sh} {sp : List Sh} :
    ∀ (kk i : Nat) (b1 f1 outs b1f f1f : List Sh),
      upsampleGoSh cfg fr sp kk i b1 f1 = .ok (outs, b1f, f1f) →
      (∀ o ∈ outs, o = (⟨fr.n, 3, 4 * fr.h, 4 * fr.w⟩ : Sh)) ∧ outs.length = kk
        ∧ b1f.length + kk = b1.length ∧ f1f.length + kk = f1.length := by
  intro kk
  induction kk with
  | zero =>
    intro i b1 f1 outs b1f f1f h
    have heq := Except.ok.inj h
    simp only [Prod.mk.injEq] at heq
    obtain ⟨h1, h2, h3⟩ := heq
    subst h1
    subst h2
    subst h3
    simp
  | succ kk ih =>
    intro i b1 f1 outs b1f f1f h
    cases b1 with
    | nil => exact absurd h (by simp [upsampleGoSh])
    | cons hb b1rest =>
      cases f1 with
      | nil => exact absurd h (by simp [upsampleGoSh])
      | cons hf f1rest =>
        simp only [upsampleGoSh] at h
        obtain ⟨mi, hmi, h⟩ := bindOk h
        obtain ⟨spi, hspi, h⟩ := bindOk h
        obtain ⟨hr, hhr, h⟩ := bindOk h
        obtain ⟨rest, hrest, h⟩ := bindOk h
        have hres : (hr :: rest.1, rest.2) = (outs, b1f, f1f) := Except.ok.inj h
        simp only [Prod.mk.injEq] at hres
        have hup := upFrameSh_shape hlow hhr
        have hih := ih (i + 1) b1rest f1rest rest.1 rest.2.1 rest.2.2 hrest
        obtain ⟨houts, hb1f⟩ := hres
        refine ⟨?_, ?_, ?_, ?_⟩
        · intro o ho
          rw [← houts] at ho
          rcases List.mem_cons.mp ho with h1 | h1
          · rw [h1]
            exact hup.1
          · exact hih.1 o h1
        · rw [← houts]
          simp only [List.length_cons]
          omega
        · have hl := hih.2.2.1
          have hb1f1 : rest.2.1 = b1f := by rw [hb1f]
          rw [← hb1f1]
          simp only [List.length_cons]
          omega
        · have hl := hih.2.2.2
          have hf1f1 : rest.2.2 = f1f := by rw [hb1f]
          rw [← hf1f1]
          simp only [List.length_cons]
          omega

theorem upsampleSh_shape {cfg : Cfg} (hlow : cfg.isLowResInput = true) {pre : PreUp}
    {out : Sh5} {b1f f1f : List Sh}
    (h : upsampleSh cfg pre = .ok (out, b1f, f1f)) :
    out = ⟨pre.lq.n, pre.lq.t, 3, 4 * pre.lq.h, 4 * pre.lq.w⟩
      ∧ b1f.length + pre.lq.t = pre.b1.length
      ∧ f1f.length + pre.lq.t = pre.f1.length := by
  simp only [upsampleSh] at h
  obtain ⟨res, hres, h⟩ := bindOk h
  obtain ⟨o, ho, h⟩ := bindOk h
  have hgo := upsampleGoSh_shape hlow pre.lq.t 0 pre.b1 pre.f1 res.1 res.2.1 res.2.2 hres
  have hstack := stackFramesSh_of_all hgo.1 ho
  have hfin : (o, res.2) = (out, b1f, f1f) := Except.ok.inj h
  simp only [Prod.mk.injEq] at hfin
  have hb1f1 : res.2.1 = b1f := by rw [hfin.2]
  have hf1f1 : res.2.2 = f1f := by rw [hfin.2]
  refine ⟨?_, ?_, ?_⟩
  · rw [← hfin.1, hstack, hgo.2.1]
  · have := hgo.2.2.1
    rw [← hb1f1]
    omega
  · have := hgo.2.2.2
    rw [← hf1f1]
    omega

/-! ### Claim theorems on the shape-level model -/

/-- C1.  The memory-tier spill policy is NOT value-preserving: two
instances that differ only in the spill threshold (`cpu_cache_length` 1
versus 100, identical otherwise) disagree on the same input
`(1, 2, 3, 64, 64)`.  With the policy inactive the forward pass returns
a `(1, 2, 3, 256, 256)` output; with it active the cache branch stores,
for every frame, the features of the whole flattened clip (batch size
`n*t = 2` instead of `n = 1`), and the forward pass crashes at the first
`torch.stack` of the propagation loop. -/
theorem spill_policy_not_value_preserving :
    initMFRSR 64 7 10 true 1 true = .ok ⟨64, 7, 10, true, 1, true⟩
    ∧ initMFRSR 64 7 10 true 100 true = .ok ⟨64, 7, 10, true, 100, true⟩
    ∧ forwardSh ⟨64, 7, 10, true, 100, true⟩ ⟨1, 2, 3, 64, 64⟩ = .ok ⟨1, 2, 3, 256, 256⟩
    ∧ forwardSh ⟨64, 7, 10, true, 1, true⟩ ⟨1, 2, 3, 64, 64⟩ = .error .stackMismatch
    ∧ spatialFeatsSh 64 1 ⟨1, 2, 3, 64, 64⟩ = .ok [⟨2, 64, 64, 64⟩, ⟨2, 64, 64, 64⟩]
    ∧ spatialFeatsSh 64 100 ⟨1, 2, 3, 64, 64⟩ = .ok [⟨1, 64, 64, 64⟩, ⟨1, 64, 64, 64⟩] :=
  ⟨rfl, rfl, rfl, rfl, rfl, rfl⟩

/-- C3.  Every output the forward pass of a (necessarily
low-res-input) constructed instance produces has the same batch and time
dimensions as the input, 3 channels, and exactly 4x the input's spatial
dimensions. -/
theorem forward_output_shape (mid numBlocks maxRes cacheLen : Nat) (cuda : Bool)
    (cfg : Cfg) (x : Sh5) (out : Sh5)
    (hinit : initMFRSR mid numBlocks maxRes true cacheLen cuda = .ok cfg)
    (hrun : forwardSh cfg x = .ok out) :
    out = ⟨x.n, x.t, 3, 4 * x.h, 4 * x.w⟩ := by
  have hcfg : (⟨mid, numBlocks, maxRes, true, cacheLen, cuda⟩ : Cfg) = cfg :=
    Except.ok.inj hinit
  have hlow : cfg.isLowResInput = true := by rw [← hcfg]
  simp only [forwardSh] at hrun
  obtain ⟨pre, hpre, hrun⟩ := bindOk hrun
  obtain ⟨res, hres, hrun⟩ := bindOk hrun
  have hres2 : upsampleSh cfg pre = .ok (res.1, res.2.1, res.2.2) := hres
  have hsh := upsampleSh_shape hlow hres2
  have hfe := forwardFeatsSh_shape hpre
  have hout : res.1 = out := Except.ok.inj hrun
  rw [← hout, hsh.1, hfe.1]

/-- Witness for `forward_output_shape` at a constructed default instance
and a concrete `(1, 1, 3, 64, 64)` input. -/
theorem forward_output_shape_witness :
    (⟨1, 1, 3, 256, 256⟩ : Sh5)
      = ⟨(⟨1, 1, 3, 64, 64⟩ : Sh5).n, (⟨1, 1, 3, 64, 64⟩ : Sh5).t, 3,
         4 * (⟨1, 1, 3, 64, 64⟩ : Sh5).h, 4 * (⟨1, 1, 3, 64, 64⟩ : Sh5).w⟩ :=
  forward_output_shape 64 7 10 100 true ⟨64, 7, 10, true, 100, true⟩
    ⟨1, 1, 3, 64, 64⟩ ⟨1, 1, 3, 256, 256⟩ rfl rfl

/-- C6.  For a constructed (low-res-input) instance and a non-degenerate
input, the forward pass fails with the documented minimum-size assertion
exactly when one of the low-res spatial dimensions is below 64; with
both at least 64 the assertion never fires (the pass either succeeds or,
when the buggy CPU-cache branch is active, fails with a different,
stack-shape error). -/
theorem lowres_assert_iff (mid numBlocks maxRes cacheLen : Nat) (cuda : Bool)
    (cfg : Cfg) (n t h w : Nat)
    (hinit : initMFRSR mid numBlocks maxRes true cacheLen cuda = .ok cfg)
    (ht : 1 ≤ t) (hh : 1 ≤ h) (hw : 1 ≤ w) :
    (∃ a b, forwardSh cfg ⟨n, t, 3, h, w⟩ = .error (.assertLowRes a b))
      ↔ (h < 64 ∨ w < 64) := by
  have hcfg : (⟨mid, numBlocks, maxRes, true, cacheLen, cuda⟩ : Cfg) = cfg :=
    Except.ok.inj hinit
  subst hcfg
  constructor
  · rintro ⟨a, b, hab⟩
    by_contra hcon
    push_neg at hcon
    obtain ⟨hh64, hw64⟩ := hcon
    by_cases hcl : cacheLen < t
    · by_cases hnt : n * t = n
      · rw [forwardSh_ok mid numBlocks maxRes cacheLen cuda n t h w ht hh64 hw64
          (Or.inr hnt)] at hab
        exact absurd hab (by simp)
      · rw [forwardSh_cache_error mid numBlocks maxRes cacheLen cuda n t h w
          hh64 hw64 hcl hnt] at hab
        exact absurd hab (by simp)
    · rw [forwardSh_ok mid numBlocks maxRes cacheLen cuda n t h w ht hh64 hw64
        (Or.inl (by omega))] at hab
      exact absurd hab (by simp)
  · intro hsmall
    exact ⟨h, w, forwardSh_assert mid numBlocks maxRes cacheLen cuda n t h w hh hw hsmall⟩

/-- Witness for `lowres_assert_iff`: a 63-pixel-high input triggers the
assertion on a constructed default instance. -/
theorem lowres_assert_iff_witness :
    (∃ a b, forwardSh ⟨64, 7, 10, true, 100, true⟩ ⟨1, 1, 3, 63, 64⟩
        = .error (.assertLowRes a b))
      ↔ (63 < 64 ∨ 64 < 64) :=
  lowres_assert_iff 64 7 10 100 true ⟨64, 7, 10, true, 100, true⟩ 1 1 63 64
    rfl (by omega) (by omega) (by omega)

/-- C7.  When reconstruction begins, each propagation direction's
feature list holds exactly `t` elements, and when the reconstruction
head has consumed all `t` frames (popping the oldest remaining feature
of each direction per frame) both direction lists are empty. -/
theorem feature_lists_drained (mid numBlocks maxRes cacheLen : Nat) (cuda : Bool)
    (cfg : Cfg) (x : Sh5) (pre : PreUp)
    (hinit : initMFRSR mid numBlocks maxRes true cacheLen cuda = .ok cfg)
    (hpre : forwardFeatsSh cfg x = .ok pre) :
    (pre.b1.length = x.t ∧ pre.f1.length = x.t)
    ∧ ∀ (out : Sh5) (b1f f1f : List Sh),
        upsampleSh cfg pre = .ok (out, b1f, f1f) → b1f = [] ∧ f1f = [] := by
  have hcfg : (⟨mid, numBlocks, maxRes, true, cacheLen, cuda⟩ : Cfg) = cfg :=
    Except.ok.inj hinit
  have hlow : cfg.isLowResInput = true := by rw [← hcfg]
  have hfe := forwardFeatsSh_shape hpre
  have hlq : pre.lq.t = x.t := by rw [hfe.1]
  refine ⟨⟨hfe.2.1, hfe.2.2⟩, ?_⟩
  intro out b1f f1f hup
  have hsh := upsampleSh_shape hlow hup
  have hb0 : b1f.length = 0 := by
    have h1 := hsh.2.1
    have h2 := hfe.2.1
    omega
  have hf0 : f1f.length = 0 := by
    have h1 := hsh.2.2
    have h2 := hfe.2.2
    omega
  exact ⟨List.length_eq_zero.mp hb0, List.length_eq_zero.mp hf0⟩

/-- Witness for `feature_lists_drained` at a constructed default
instance and a concrete one-frame input. -/
theorem feature_lists_drained_witness :
    ((PreUp.mk ⟨1, 1, 3, 64, 64⟩ [⟨1, 64, 64, 64⟩] [⟨1, 64, 64, 64⟩]
        [⟨1, 64, 64, 64⟩]).b1.length = (⟨1, 1, 3, 64, 64⟩ : Sh5).t
      ∧ (PreUp.mk ⟨1, 1, 3, 64, 64⟩ [⟨1, 64, 64, 64⟩] [⟨1, 64, 64, 64⟩]
        [⟨1, 64, 64, 64⟩]).f1.length = (⟨1, 1, 3, 64, 64⟩ : Sh5).t)
    ∧ ∀ (out : Sh5) (b1f f1f : List Sh),
        upsampleSh ⟨64, 7, 10, true, 100, true⟩
          (PreUp.mk ⟨1, 1, 3, 64, 64⟩ [⟨1, 64, 64, 64⟩] [⟨1, 64, 64, 64⟩]
            [⟨1, 64, 64, 64⟩]) = .ok (out, b1f, f1f) → b1f = [] ∧ f1f = [] :=
  feature_lists_drained 64 7 10 100 true ⟨64, 7, 10, true, 100, true⟩
    ⟨1, 1, 3, 64, 64⟩
    (PreUp.mk ⟨1, 1, 3, 64, 64⟩ [⟨1, 64, 64, 64⟩] [⟨1, 64, 64, 64⟩] [⟨1, 64, 64, 64⟩])
    rfl rfl

end MFRSRSpec
